import Mathlib

/-!
# Seekable zstd encoder: byte-oriented API (pkg/encoder.go)

A shallow embedding of `encodeOne`, `Encode` and `EndStream` of `writerImpl`.

Conventions of the embedding:

* a byte slice is a `List Nat` (every byte the code writes is reduced `% 256`);
  a nil slice and an empty slice are both `[]`;
* a Go result pair `([]byte, error)` is a pair `List Nat × Option EncodeError`,
  the `nil` error being `none`;
* `uint32(x)` is `x % 2 ^ 32`, and 64-bit shifts wrap `% 2 ^ 64`;
* `len(x)` is a Go `int` (64 bits); slices are bounded by memory, so `int64(len(x))`
  and `len(x) * 12 + 9` are the exact natural numbers;
* a run-time panic (slice bounds out of range) is `none` in `Option`.
-/

namespace Seekable

/-! ## Data model -/

/-- The errors built with `fmt.Errorf`, one constructor per format string, carrying
the two numbers that are printed. -/
inductive EncodeError where
  /-- Error "chunk size too big for seekable format: %d > %d". -/
  | chunkTooBig (size max : Nat)
  /-- Error "result size too big for seekable format: %d > %d". -/
  | resultTooBig (size max : Nat)
  /-- Error "number of frames for seekable format: %d > %d". -/
  | tooManyFrames (count max : Nat)
  /-- Failure of `createSkippableFrame` (payload over the frame-size limit). -/
  | frameTooBig (size max : Nat)
  deriving DecidableEq, Repr

/-- One record of the seek table; the three fields are `uint32` in the source. -/
structure seekTableEntry where
  CompressedSize : Nat
  DecompressedSize : Nat
  Checksum : Nat
  deriving DecidableEq, Repr

/-- The zero value `seekTableEntry{}`. -/
def seekTableEntry.zero : seekTableEntry := ⟨0, 0, 0⟩

/-- The one-flag descriptor of the footer. -/
structure seekTableDescriptor where
  ChecksumFlag : Bool
  deriving DecidableEq, Repr

/-- The footer record; `NumberOfFrames` and `SeekableMagicNumber` are `uint32`. -/
structure seekTableFooter where
  NumberOfFrames : Nat
  SeekTableDescriptor : seekTableDescriptor
  SeekableMagicNumber : Nat
  deriving DecidableEq, Repr

/-- What `encoder.go` uses and does not declare, taken as parameters: the package
constants `maxChunkSize`, `maxNumberOfFrames`, `seekableMagicNumber`, `seekableTag`
(declared in another file of the package), the external hash `xxhash.Sum64`, and the
three constants that the helpers modelled below need. The two maxima are sizes and
counts, compared with `int64(len(..))`, hence natural numbers. -/
structure Env where
  /-- Constant `maxChunkSize`. -/
  maxChunkSize : Nat
  /-- Constant `maxNumberOfFrames`. -/
  maxNumberOfFrames : Nat
  /-- Constant `seekableMagicNumber`. -/
  seekableMagicNumber : Nat
  /-- Constant `seekableTag`. -/
  seekableTag : Nat
  /-- External `xxhash.Sum64`, a `uint64`. -/
  Sum64 : List Nat → Nat
  /-- Byte value of the checksum-present flag of the descriptor. -/
  checksumFlagMask : Nat
  /-- Frame-type identifier of the skippable frame with a given tag. -/
  skippableFrameType : Nat → Nat
  /-- Frame-size limit of the skippable-frame writer. -/
  maxFrameSize : Nat

/-- The codec capability `ZSTDEncoder`: `EncodeAll(src, nil)`. -/
structure ZSTDEncoder where
  EncodeAll : List Nat → List Nat

/-- The fields of `writerImpl` that `encoder.go` touches. -/
structure writerImpl where
  enc : ZSTDEncoder
  frameEntries : List seekTableEntry

/-! ## Encode path (encoder.go, lines 27-65) -/

/-- Conversion `uint32(x)`. -/
def uint32 (x : Nat) : Nat := x % 2 ^ 32

/-- Wrapping left shift on `uint64`. -/
def shl64 (x k : Nat) : Nat := (x <<< k) % 2 ^ 64

/-- Right shift on `uint64`. -/
def shr64 (x k : Nat) : Nat := x >>> k

/-- Embedding of `writerImpl.encodeOne`. -/
def writerImpl.encodeOne (E : Env) (s : writerImpl) (src : List Nat) :
    List Nat × seekTableEntry × Option EncodeError :=
  if src.length > E.maxChunkSize then
    ([], seekTableEntry.zero, some (EncodeError.chunkTooBig src.length E.maxChunkSize))
  else if src.length = 0 then
    ([], seekTableEntry.zero, none)
  else
    let dst := s.enc.EncodeAll src
    if dst.length > E.maxChunkSize then
      ([], seekTableEntry.zero, some (EncodeError.resultTooBig dst.length E.maxChunkSize))
    else
      (dst,
        ⟨uint32 dst.length, uint32 src.length,
          uint32 (shr64 (shl64 (E.Sum64 src % 2 ^ 64) 32) 32)⟩,
        none)

/-- Embedding of `writerImpl.Encode`: the returned pair and the encoder afterwards. -/
def writerImpl.Encode (E : Env) (s : writerImpl) (src : List Nat) :
    (List Nat × Option EncodeError) × writerImpl :=
  if src.length = 0 then
    (([], none), s)
  else
    match s.encodeOne E src with
    | (_, _, some err) => (([], some err), s)
    | (dst, entry, none) => ((dst, none), ⟨s.enc, s.frameEntries ++ [entry]⟩)

/-! ## Byte buffers -/

/-- Allocation `make([]byte, n)`: n zero bytes. -/
def makeBytes (n : Nat) : List Nat := List.replicate n 0

/-- Passing the sub-slice `buf[lo:hi]` to a function that writes through it. The slice
expression panics unless `lo ≤ hi ≤ len(buf)`; the bytes written through the view land
in `buf` at offset `lo`. -/
def withSlice (buf : List Nat) (lo hi : Nat) (f : List Nat → Option (List Nat)) :
    Option (List Nat) :=
  if lo ≤ hi ∧ hi ≤ buf.length then
    match f ((buf.drop lo).take (hi - lo)) with
    | some w => some (buf.take lo ++ w ++ buf.drop hi)
    | none => none
  else
    none

/-- Go standard library `binary.LittleEndian.PutUint32(b, v)`: bounds check `_ = b[3]`,
then `b[0] = byte(v)`, `b[1] = byte(v >> 8)`, `b[2] = byte(v >> 16)`,
`b[3] = byte(v >> 24)`. -/
def LittleEndian.PutUint32 (b : List Nat) (v : Nat) : Option (List Nat) :=
  if 3 < b.length then
    some ((((b.set 0 (v % 256)).set 1 (v >>> 8 % 256)).set 2 (v >>> 16 % 256)).set 3
      (v >>> 24 % 256))
  else
    none

/-- The four bytes of a 32-bit value in little-endian order, as the wire layout of the
specification names them. -/
def le32 (v : Nat) : List Nat :=
  [v % 256, v / 2 ^ 8 % 256, v / 2 ^ 16 % 256, v / 2 ^ 24 % 256]

/-! ## Helpers of the package that are declared outside encoder.go -/

/-- Modelled from the spec: `seekTableEntry.marshalBinaryInline` is declared outside
encoder.go. The specification: each entry is serialized into its 12-byte slot as
`CompressedSize`, `DecompressedSize`, `Checksum`, each a 4-byte little-endian unsigned
integer, at offsets 0, 4 and 8 of the slot. -/
def seekTableEntry.marshalBinaryInline (e : seekTableEntry) (dst : List Nat) :
    Option (List Nat) := do
  let dst ← withSlice dst 0 dst.length (fun b => LittleEndian.PutUint32 b e.CompressedSize)
  let dst ← withSlice dst 4 dst.length (fun b => LittleEndian.PutUint32 b e.DecompressedSize)
  withSlice dst 8 dst.length (fun b => LittleEndian.PutUint32 b e.Checksum)

/-- Modelled from the spec: the byte of a `seekTableDescriptor` is declared outside
encoder.go. The specification: one byte of flags, the only defined flag being
checksum-present. -/
def seekTableDescriptor.toByte (E : Env) (d : seekTableDescriptor) : Nat :=
  if d.ChecksumFlag then E.checksumFlagMask % 256 else 0

/-- Modelled from the spec: `seekTableFooter.marshalBinaryInline` is declared outside
encoder.go. The specification: the 9-byte footer is `NumberOfFrames` (4 bytes,
little-endian) at offset 0, the descriptor byte at offset 4, `MagicNumber` (4 bytes,
little-endian) at offset 5. -/
def seekTableFooter.marshalBinaryInline (E : Env) (f : seekTableFooter) (dst : List Nat) :
    Option (List Nat) := do
  let dst ← withSlice dst 0 dst.length (fun b => LittleEndian.PutUint32 b f.NumberOfFrames)
  let dst ← if 4 < dst.length then some (dst.set 4 (f.SeekTableDescriptor.toByte E)) else none
  withSlice dst 5 dst.length (fun b => LittleEndian.PutUint32 b f.SeekableMagicNumber)

/-- Modelled from the spec: `createSkippableFrame` is declared outside encoder.go. The
specification of Wrap: a frame-type identifier selected by the tag, a 4-byte
little-endian payload length, then the payload verbatim; it fails only if the payload
exceeds the frame-size limit. -/
def createSkippableFrame (E : Env) (tag : Nat) (payload : List Nat) :
    List Nat × Option EncodeError :=
  if payload.length > E.maxFrameSize then
    ([], some (EncodeError.frameTooBig payload.length E.maxFrameSize))
  else
    (le32 (E.skippableFrameType tag) ++ le32 payload.length ++ payload, none)

/-- Modelled from the spec: `NewWriter` is declared outside encoder.go. The
specification: the entry sequence is created empty at construction. `NewEncoder`
returns that writer. -/
def NewEncoder (encoder : ZSTDEncoder) : writerImpl := ⟨encoder, []⟩

/-! ## EndStream (encoder.go, lines 67-88) -/

/-- The loop `for i, e := range s.frameEntries`, from index `i` on:
`e.marshalBinaryInline(seekTable[i*12 : (i+1)*12])`. -/
def EndStream.loop : List seekTableEntry → Nat → List Nat → Option (List Nat)
  | [], _, seekTable => some seekTable
  | e :: es, i, seekTable =>
    match withSlice seekTable (i * 12) ((i + 1) * 12) e.marshalBinaryInline with
    | some seekTable => EndStream.loop es (i + 1) seekTable
    | none => none

/-- The local `footer` of `EndStream` (lines 78-84). -/
def EndStream.footer (E : Env) (s : writerImpl) : seekTableFooter :=
  ⟨uint32 s.frameEntries.length, ⟨true⟩, E.seekableMagicNumber⟩

/-- The local `seekTable` of `EndStream` when it is handed to `createSkippableFrame`
(lines 73-86): allocation, the loop over the entries, the footer. -/
def EndStream.seekTable (E : Env) (s : writerImpl) : Option (List Nat) :=
  match EndStream.loop s.frameEntries 0 (makeBytes (s.frameEntries.length * 12 + 9)) with
  | some seekTable =>
    withSlice seekTable (s.frameEntries.length * 12) (s.frameEntries.length * 12 + 9)
      ((EndStream.footer E s).marshalBinaryInline E)
  | none => none

/-- Embedding of `writerImpl.EndStream`: the returned pair and the encoder afterwards
(no field of the receiver is assigned). -/
def writerImpl.EndStream (E : Env) (s : writerImpl) :
    Option ((List Nat × Option EncodeError) × writerImpl) :=
  if s.frameEntries.length > E.maxNumberOfFrames then
    some (([], some (EncodeError.tooManyFrames s.frameEntries.length E.maxNumberOfFrames)), s)
  else
    match EndStream.seekTable E s with
    | some seekTable => some (createSkippableFrame E E.seekableTag seekTable, s)
    | none => none

/-! ## Sessions -/

/-- A caller making the calls `Encode(src)` for each `src` of the list, in order: the
returned pairs, in call order, and the encoder afterwards. -/
def encodeCalls (E : Env) (s : writerImpl) :
    List (List Nat) → List (List Nat × Option EncodeError) × writerImpl
  | [] => ([], s)
  | src :: rest =>
    let r := s.Encode E src
    let rs := encodeCalls E r.2 rest
    (r.1 :: rs.1, rs.2)

/-- The inputs of the calls of a session that were non-empty and returned no error, in
call order. -/
def successfulInputs (E : Env) (s : writerImpl) (srcs : List (List Nat)) : List (List Nat) :=
  ((srcs.zip (encodeCalls E s srcs).1).filter
    (fun p => decide (p.1 ≠ []) && p.2.2.isNone)).map Prod.fst

/-! ## The wire layout, for the statements -/

/-- The unsigned value of the first four bytes of a slice, read in little-endian
order. -/
def readLE32 (b : List Nat) : Option Nat :=
  match b with
  | b0 :: b1 :: b2 :: b3 :: _ => some (b0 + b1 * 2 ^ 8 + b2 * 2 ^ 16 + b3 * 2 ^ 24)
  | _ => none

/-- The 12 bytes of an entry on the wire: `CompressedSize`, `DecompressedSize`,
`Checksum`, each little-endian on 4 bytes. -/
def entryBytes (e : seekTableEntry) : List Nat :=
  le32 e.CompressedSize ++ le32 e.DecompressedSize ++ le32 e.Checksum

/-- The entries on the wire, one after the other, in list order. -/
def tableBytes : List seekTableEntry → List Nat
  | [] => []
  | e :: es => entryBytes e ++ tableBytes es

/-- The 9 bytes of a footer on the wire. -/
def footerBytes (E : Env) (f : seekTableFooter) : List Nat :=
  le32 f.NumberOfFrames ++ [f.SeekTableDescriptor.toByte E] ++ le32 f.SeekableMagicNumber

/-! ## A concrete instance -/

/-- A toy hash: the sum of the bytes plus a large constant. -/
def demoSum64 (src : List Nat) : Nat := src.sum + 18446744069414584321

/-- Constants for examples: the 32-bit maxima, the seekable magic number `0x8F92EAB1`,
tag `0xE`, flag bit 7, skippable frame type `0x184D2A50 + tag`. -/
def demoEnv : Env :=
  ⟨4294967295, 4294967295, 2408770225, 14, demoSum64, 128, fun tag => 407710288 + tag,
    4294967295⟩

/-- A toy codec: two header bytes and the input. -/
def demoCodec : ZSTDEncoder := ⟨fun src => 40 :: 181 :: src⟩

/-- Small maxima, so that the size checks can be exercised on short inputs. -/
def tinyEnv : Env :=
  ⟨4, 2, 2408770225, 14, demoSum64, 128, fun tag => 407710288 + tag, 4294967295⟩

/-- Two chunks of 100 and 200 bytes. -/
def demoChunks : List (List Nat) := [List.replicate 100 0, List.replicate 200 0]

/-- A session with a result that is too big, an empty input, a success, an input that
is too big, and a second success (under `tinyEnv` and `demoCodec`). -/
def mixedCalls : List (List Nat) := [[1, 2, 3], [], [4, 5], [1, 2, 3, 4, 5, 6], [9]]

/-- The frame `EndStream` returns after `mixedCalls`. -/
def mixedFrame : List Nat :=
  [94, 42, 77, 24, 33, 0, 0, 0, 4, 0, 0, 0, 2, 0, 0, 0, 10, 0, 0, 0, 3, 0, 0, 0, 1, 0, 0, 0,
    10, 0, 0, 0, 2, 0, 0, 0, 128, 177, 234, 146, 143]

/-! ## Sequences of calls of both operations -/

/-- One call of the byte-oriented API: `Encode(src)` or `EndStream()`. -/
inductive Call where
  | Encode (src : List Nat)
  | EndStream

/-- A caller making the given calls in order: the encoder afterwards, or `none` when a
call panics. -/
def runCalls (E : Env) (s : writerImpl) : List Call → Option writerImpl
  | [] => some s
  | Call.Encode src :: rest => runCalls E (s.Encode E src).2 rest
  | Call.EndStream :: rest =>
    match s.EndStream E with
    | some (_, t) => runCalls E t rest
    | none => none

/-- The inputs of the `Encode` calls of a sequence of calls, in call order. -/
def encodeInputs : List Call → List (List Nat)
  | [] => []
  | Call.Encode src :: rest => src :: encodeInputs rest
  | Call.EndStream :: rest => encodeInputs rest

/-- The inputs of the calls of a session that returned no error, empty inputs
included, in call order. -/
def acceptedInputs (E : Env) (s : writerImpl) (srcs : List (List Nat)) : List (List Nat) :=
  ((srcs.zip (encodeCalls E s srcs).1).filter (fun p => p.2.2.isNone)).map Prod.fst

/-- The bounds of the slice expression `seekTable[i*12 : (i+1)*12]` of the loop of
`EndStream`. -/
def EndStream.entrySlot (i : Nat) : Nat × Nat := (i * 12, (i + 1) * 12)

/-- The bounds of the slice expression
`seekTable[len(s.frameEntries)*12 : len(s.frameEntries)*12+9]` of `EndStream`, for
`n` entries. -/
def EndStream.footerSlot (n : Nat) : Nat × Nat := (n * 12, n * 12 + 9)

/-- The length `len(s.frameEntries)*12+9` of the buffer `EndStream` allocates, for `n`
entries. -/
def EndStream.bufferLength (n : Nat) : Nat := n * 12 + 9

/-- Constants with a frame-size limit of 20 bytes, below the payload of one entry. -/
def narrowEnv : Env :=
  ⟨4294967295, 4294967295, 2408770225, 14, demoSum64, 128, fun tag => 407710288 + tag, 20⟩

/-- Three entries, one more than `tinyEnv` allows. -/
def threeEntries : List seekTableEntry := [⟨7, 5, 1⟩, ⟨4, 2, 10⟩, ⟨3, 1, 10⟩]

/-- A sequence of calls of both operations: a result that is too big, `EndStream`, an
empty input, a success, an input that is too big, `EndStream`, a second success (under
`tinyEnv` and `demoCodec`). -/
def mixedApiCalls : List Call :=
  [Call.Encode [1, 2, 3], Call.EndStream, Call.Encode [], Call.Encode [4, 5],
    Call.Encode [1, 2, 3, 4, 5, 6], Call.EndStream, Call.Encode [9]]

/-! ## Lemmas on the Encode path -/

theorem length_pos_of_ne_nil {src : List Nat} (hne : src ≠ []) : src.length ≠ 0 := by
  intro h
  exact hne (List.length_eq_zero.mp h)

/-- The successful branch of `Encode`, in closed form. -/
theorem Encode_of_within_bounds (E : Env) (s : writerImpl) (src : List Nat)
    (hne : src ≠ []) (hsrc : src.length ≤ E.maxChunkSize)
    (hdst : (s.enc.EncodeAll src).length ≤ E.maxChunkSize) :
    s.Encode E src =
      ((s.enc.EncodeAll src, none),
        ⟨s.enc, s.frameEntries ++
          [⟨uint32 (s.enc.EncodeAll src).length, uint32 src.length,
            uint32 (shr64 (shl64 (E.Sum64 src % 2 ^ 64) 32) 32)⟩]⟩) := by
  have h0 : src.length ≠ 0 := length_pos_of_ne_nil hne
  have h1 : ¬ src.length > E.maxChunkSize := Nat.not_lt.mpr hsrc
  have h2 : ¬ (s.enc.EncodeAll src).length > E.maxChunkSize := Nat.not_lt.mpr hdst
  simp only [writerImpl.Encode, writerImpl.encodeOne, if_neg h0, if_neg h1, if_neg h2]

/-- The first failing branch of `Encode`. -/
theorem Encode_of_input_too_big (E : Env) (s : writerImpl) (src : List Nat)
    (hbig : src.length > E.maxChunkSize) :
    s.Encode E src =
      (([], some (EncodeError.chunkTooBig src.length E.maxChunkSize)), s) := by
  have h0 : src.length ≠ 0 := by omega
  simp only [writerImpl.Encode, writerImpl.encodeOne, if_neg h0, if_pos hbig]

/-- The second failing branch of `Encode`. -/
theorem Encode_of_result_too_big (E : Env) (s : writerImpl) (src : List Nat)
    (hne : src ≠ []) (hsrc : src.length ≤ E.maxChunkSize)
    (hdst : (s.enc.EncodeAll src).length > E.maxChunkSize) :
    s.Encode E src =
      (([], some (EncodeError.resultTooBig (s.enc.EncodeAll src).length E.maxChunkSize)),
        s) := by
  have h0 : src.length ≠ 0 := length_pos_of_ne_nil hne
  have h1 : ¬ src.length > E.maxChunkSize := Nat.not_lt.mpr hsrc
  simp only [writerImpl.Encode, writerImpl.encodeOne, if_neg h0, if_neg h1, if_pos hdst]

/-- A call on a non-empty input that returns no error passed both size checks. -/
theorem bounds_of_Encode_ok (E : Env) (s : writerImpl) (src : List Nat)
    (hne : src ≠ []) (hok : (s.Encode E src).1.2 = none) :
    src.length ≤ E.maxChunkSize ∧ (s.enc.EncodeAll src).length ≤ E.maxChunkSize := by
  by_cases hsrc : src.length ≤ E.maxChunkSize
  · by_cases hdst : (s.enc.EncodeAll src).length ≤ E.maxChunkSize
    · exact ⟨hsrc, hdst⟩
    · rw [Encode_of_result_too_big E s src hne hsrc (Nat.lt_of_not_le hdst)] at hok
      simp at hok
  · rw [Encode_of_input_too_big E s src (Nat.lt_of_not_le hsrc)] at hok
    simp at hok

/-- The expression `uint32((h << 32) >> 32)` keeps the low 32 bits of `h`. -/
theorem low32_shift (h : Nat) : uint32 (shr64 (shl64 h 32) 32) = h % 2 ^ 32 := by
  simp only [uint32, shr64, shl64, Nat.shiftLeft_eq, Nat.shiftRight_eq_div_pow]
  omega

theorem uint32_of_le {n m : Nat} (h : n ≤ m) (hm : m ≤ 4294967295) : uint32 n = n := by
  simp only [uint32]
  omega

/-! ## Lemmas on the buffer and on EndStream -/

theorem PutUint32_eq (b : List Nat) (v : Nat) (h : 4 ≤ b.length) :
    LittleEndian.PutUint32 b v = some (le32 v ++ b.drop 4) := by
  match b, h with
  | b0 :: b1 :: b2 :: b3 :: rest, _ =>
    simp [LittleEndian.PutUint32, le32, Nat.shiftRight_eq_div_pow]

theorem entry_marshal_eq (e : seekTableEntry) (dst : List Nat) (h : dst.length = 12) :
    e.marshalBinaryInline dst = some (entryBytes e) := by
  match dst, h with
  | [a0, a1, a2, a3, a4, a5, a6, a7, a8, a9, a10, a11], _ =>
    simp [seekTableEntry.marshalBinaryInline, withSlice, LittleEndian.PutUint32, entryBytes,
      le32, Nat.shiftRight_eq_div_pow]

theorem footer_marshal_eq (E : Env) (f : seekTableFooter) (dst : List Nat)
    (h : dst.length = 9) :
    f.marshalBinaryInline E dst = some (footerBytes E f) := by
  match dst, h with
  | [a0, a1, a2, a3, a4, a5, a6, a7, a8], _ =>
    simp [seekTableFooter.marshalBinaryInline, withSlice, LittleEndian.PutUint32, footerBytes,
      le32, Nat.shiftRight_eq_div_pow]

theorem entryBytes_length (e : seekTableEntry) : (entryBytes e).length = 12 := by
  simp [entryBytes, le32]

theorem tableBytes_length (es : List seekTableEntry) :
    (tableBytes es).length = 12 * es.length := by
  induction es with
  | nil => rfl
  | cons e es ih =>
    simp only [tableBytes, List.length_append, entryBytes_length, ih, List.length_cons]
    omega

theorem footerBytes_length (E : Env) (f : seekTableFooter) : (footerBytes E f).length = 9 := by
  simp [footerBytes, le32]

theorem withSlice_append (pre mid post : List Nat) (lo hi : Nat)
    (f : List Nat → Option (List Nat)) (w : List Nat)
    (hpre : pre.length = lo) (hmid : lo + mid.length = hi) (hf : f mid = some w) :
    withSlice (pre ++ (mid ++ post)) lo hi f = some (pre ++ (w ++ post)) := by
  have hcond : lo ≤ hi ∧ hi ≤ (pre ++ (mid ++ post)).length := by
    simp only [List.length_append]
    omega
  have hdrop : (pre ++ (mid ++ post)).drop lo = mid ++ post := by
    rw [← hpre]
    exact List.drop_left pre (mid ++ post)
  have htake : (mid ++ post).take (hi - lo) = mid := by
    have : hi - lo = mid.length := by omega
    rw [this]
    exact List.take_left mid post
  have htake2 : (pre ++ (mid ++ post)).take lo = pre := by
    rw [← hpre]
    exact List.take_left pre (mid ++ post)
  have hdrop2 : (pre ++ (mid ++ post)).drop hi = post := by
    have : pre ++ (mid ++ post) = (pre ++ mid) ++ post := by simp
    rw [this]
    have hl : hi = (pre ++ mid).length := by
      simp only [List.length_append]
      omega
    rw [hl]
    exact List.drop_left (pre ++ mid) post
  simp only [withSlice, if_pos hcond, hdrop, htake, hf, htake2, hdrop2, List.append_assoc]

theorem loop_append (es : List seekTableEntry) :
    ∀ (i : Nat) (pre mid post : List Nat),
      pre.length = 12 * i → mid.length = 12 * es.length →
      EndStream.loop es i (pre ++ (mid ++ post)) = some (pre ++ (tableBytes es ++ post)) := by
  induction es with
  | nil =>
    intro i pre mid post _ hmid
    have : mid = [] := List.length_eq_zero.mp (by simpa using hmid)
    simp [EndStream.loop, tableBytes, this]
  | cons e es ih =>
    intro i pre mid post hpre hmid
    have hlen : mid.length = 12 + 12 * es.length := by
      rw [hmid, List.length_cons]
      omega
    have hsplit : mid = mid.take 12 ++ mid.drop 12 := (List.take_append_drop 12 mid).symm
    have h1 : (mid.take 12).length = 12 := by
      rw [List.length_take]
      omega
    have h2 : (mid.drop 12).length = 12 * es.length := by
      rw [List.length_drop]
      omega
    have hw : withSlice (pre ++ (mid ++ post)) (i * 12) ((i + 1) * 12) e.marshalBinaryInline =
        some (pre ++ (entryBytes e ++ (mid.drop 12 ++ post))) := by
      have hm : mid ++ post = mid.take 12 ++ (mid.drop 12 ++ post) := by
        rw [← List.append_assoc, ← hsplit]
      rw [hm]
      exact withSlice_append pre (mid.take 12) (mid.drop 12 ++ post) (i * 12) ((i + 1) * 12)
        e.marshalBinaryInline (entryBytes e) (by omega) (by omega)
        (entry_marshal_eq e (mid.take 12) h1)
    have hih := ih (i + 1) (pre ++ entryBytes e) (mid.drop 12) post
      (by rw [List.length_append, entryBytes_length]; omega) h2
    simp only [EndStream.loop, hw]
    simp only [List.append_assoc] at hih
    simp only [hih, tableBytes, List.append_assoc]

theorem seekTable_eq (E : Env) (s : writerImpl) :
    EndStream.seekTable E s =
      some (tableBytes s.frameEntries ++ footerBytes E (EndStream.footer E s)) := by
  have hbuf : makeBytes (s.frameEntries.length * 12 + 9) =
      [] ++ (List.replicate (12 * s.frameEntries.length) 0 ++ List.replicate 9 0) := by
    have hn : s.frameEntries.length * 12 + 9 = 12 * s.frameEntries.length + 9 := by omega
    rw [makeBytes, hn, List.replicate_add, List.nil_append]
  have hloop := loop_append s.frameEntries 0 [] (List.replicate (12 * s.frameEntries.length) 0)
    (List.replicate 9 0) rfl (List.length_replicate _ _)
  have hfoot := withSlice_append (tableBytes s.frameEntries) (List.replicate 9 0) []
    (s.frameEntries.length * 12) (s.frameEntries.length * 12 + 9)
    ((EndStream.footer E s).marshalBinaryInline E) (footerBytes E (EndStream.footer E s))
    (by rw [tableBytes_length]; omega) (by simp)
    (footer_marshal_eq E _ _ (List.length_replicate _ _))
  simp only [List.append_nil] at hfoot
  simp only [List.nil_append] at hbuf hloop
  simp only [EndStream.seekTable, hbuf, hloop, hfoot]

/-! ## Lemmas on sessions and on the payload -/

theorem Encode_enc (E : Env) (s : writerImpl) (src : List Nat) :
    (s.Encode E src).2.enc = s.enc := by
  unfold writerImpl.Encode
  split
  · rfl
  · split <;> rfl

theorem encodeOne_congr (E : Env) (s t : writerImpl) (src : List Nat) (h : t.enc = s.enc) :
    t.encodeOne E src = s.encodeOne E src := by
  simp only [writerImpl.encodeOne, h]

theorem successfulInputs_nil (E : Env) (s : writerImpl) : successfulInputs E s [] = [] := rfl

theorem successfulInputs_cons (E : Env) (s : writerImpl) (src : List Nat)
    (rest : List (List Nat)) :
    successfulInputs E s (src :: rest) =
      (if src ≠ [] ∧ (s.Encode E src).1.2 = none then [src] else []) ++
        successfulInputs E (s.Encode E src).2 rest := by
  by_cases h : src ≠ [] ∧ (s.Encode E src).1.2 = none
  · simp [successfulInputs, encodeCalls, List.filter_cons, h]
  · rw [if_neg h]
    simp only [not_and_or, not_not] at h
    rcases h with h | h
    · simp [successfulInputs, encodeCalls, List.filter_cons, h]
    · simp [successfulInputs, encodeCalls, List.filter_cons, h]

/-- The entry list after a session: the entries of the successful non-empty calls,
appended in call order. -/
theorem encodeCalls_frameEntries (E : Env) (srcs : List (List Nat)) :
    ∀ s : writerImpl,
      (encodeCalls E s srcs).2.frameEntries =
        s.frameEntries ++
          (successfulInputs E s srcs).map (fun src => (s.encodeOne E src).2.1) := by
  induction srcs with
  | nil =>
    intro s
    simp [encodeCalls, successfulInputs_nil]
  | cons src rest ih =>
    intro s
    have hmap : (fun x => ((s.Encode E src).2.encodeOne E x).2.1) =
        (fun x => (s.encodeOne E x).2.1) := by
      funext x
      rw [encodeOne_congr E s _ x (Encode_enc E s src)]
    rw [successfulInputs_cons]
    simp only [encodeCalls]
    rw [ih (s.Encode E src).2, hmap]
    by_cases hne : src = []
    · subst hne
      simp [show writerImpl.Encode E s [] = (([], none), s) from by simp [writerImpl.Encode]]
    · by_cases hok : (s.Encode E src).1.2 = none
      · obtain ⟨hsrc, hdst⟩ := bounds_of_Encode_ok E s src hne hok
        have hE := Encode_of_within_bounds E s src hne hsrc hdst
        have h1 : (s.encodeOne E src).2.1 =
            ⟨uint32 (s.enc.EncodeAll src).length, uint32 src.length,
              uint32 (shr64 (shl64 (E.Sum64 src % 2 ^ 64) 32) 32)⟩ := by
          have h0 : src.length ≠ 0 := length_pos_of_ne_nil hne
          have h1 : ¬ src.length > E.maxChunkSize := Nat.not_lt.mpr hsrc
          have h2 : ¬ (s.enc.EncodeAll src).length > E.maxChunkSize := Nat.not_lt.mpr hdst
          simp only [writerImpl.encodeOne, if_neg h0, if_neg h1, if_neg h2]
        rw [if_pos ⟨hne, hok⟩, hE]
        simp [h1]
      · have hsame : (s.Encode E src).2 = s := by
          by_cases hsrc : src.length ≤ E.maxChunkSize
          · by_cases hdst : (s.enc.EncodeAll src).length ≤ E.maxChunkSize
            · rw [Encode_of_within_bounds E s src hne hsrc hdst] at hok
              exact absurd rfl hok
            · rw [Encode_of_result_too_big E s src hne hsrc (Nat.lt_of_not_le hdst)]
          · rw [Encode_of_input_too_big E s src (Nat.lt_of_not_le hsrc)]
        rw [if_neg (fun h => hok h.2), hsame]
        simp

theorem EndStream_eq (E : Env) (s : writerImpl) :
    s.EndStream E =
      if s.frameEntries.length > E.maxNumberOfFrames then
        some (([], some (EncodeError.tooManyFrames s.frameEntries.length
          E.maxNumberOfFrames)), s)
      else
        some (createSkippableFrame E E.seekableTag
          (tableBytes s.frameEntries ++ footerBytes E (EndStream.footer E s)), s) := by
  simp only [writerImpl.EndStream, seekTable_eq]

theorem readLE32_le32 (v : Nat) (rest : List Nat) :
    readLE32 (le32 v ++ rest) = some (v % 2 ^ 32) := by
  simp only [le32, readLE32, List.cons_append, List.nil_append, Option.some.injEq]
  omega

/-- The slot of the entry at position `i` in the serialized table. -/
theorem tableBytes_slot (es : List seekTableEntry) :
    ∀ (i : Nat) (e : seekTableEntry) (post : List Nat), es[i]? = some e →
      (tableBytes es ++ post).drop (12 * i) = entryBytes e ++ ((tableBytes es ++ post).drop (12 * i + 12)) := by
  induction es with
  | nil =>
    intro i e post h
    simp at h
  | cons x xs ih =>
    intro i e post h
    cases i with
    | zero =>
      simp only [List.getElem?_cons_zero, Option.some.injEq] at h
      subst h
      have hl : 12 * 0 + 12 = (entryBytes x).length := by rw [entryBytes_length]
      rw [hl]
      simp only [tableBytes, List.append_assoc, Nat.mul_zero, List.drop_zero, List.drop_left]
    | succ j =>
      simp only [List.getElem?_cons_succ] at h
      have hj := ih j e post h
      have h1 : 12 * (j + 1) = (entryBytes x).length + 12 * j := by
        rw [entryBytes_length]; omega
      rw [h1, Nat.add_assoc]
      simp only [tableBytes, List.append_assoc, List.drop_append]
      exact hj

theorem encodeOne_entry_lt (E : Env) (s : writerImpl) (src : List Nat) :
    (s.encodeOne E src).2.1.CompressedSize < 2 ^ 32 ∧
    (s.encodeOne E src).2.1.DecompressedSize < 2 ^ 32 ∧
    (s.encodeOne E src).2.1.Checksum < 2 ^ 32 := by
  have hz : (0 : Nat) < 2 ^ 32 := by decide
  have hu : ∀ x : Nat, uint32 x < 2 ^ 32 := fun x => Nat.mod_lt x hz
  unfold writerImpl.encodeOne
  split
  · exact ⟨hz, hz, hz⟩
  · split
    · exact ⟨hz, hz, hz⟩
    · simp only
      split
      · exact ⟨hz, hz, hz⟩
      · exact ⟨hu _, hu _, hu _⟩

theorem drop_table_append (es : List seekTableEntry) (k : Nat) (post : List Nat) :
    (tableBytes es ++ post).drop (12 * es.length + k) = post.drop k := by
  rw [← tableBytes_length es]
  exact List.drop_append k

theorem drop_table_append_zero (es : List seekTableEntry) (post : List Nat) :
    (tableBytes es ++ post).drop (12 * es.length) = post := by
  have h := drop_table_append es 0 post
  simpa using h

theorem getElem_table_append (es : List seekTableEntry) (k : Nat) (post : List Nat) :
    (tableBytes es ++ post)[12 * es.length + k]? = post[k]? := by
  rw [List.getElem?_append_right (by rw [tableBytes_length]; omega), tableBytes_length]
  congr 1
  omega

theorem footer_NumberOfFrames (E : Env) (s : writerImpl)
    (h32 : E.maxNumberOfFrames ≤ 4294967295)
    (hN : s.frameEntries.length ≤ E.maxNumberOfFrames) :
    (EndStream.footer E s).NumberOfFrames = s.frameEntries.length :=
  uint32_of_le hN h32

/-- Facts about the payload of any encoder state within the frame-count bound. -/
theorem payload_facts (E : Env) (s : writerImpl)
    (hN : s.frameEntries.length ≤ E.maxNumberOfFrames) :
    EndStream.seekTable E s =
      some (tableBytes s.frameEntries ++ footerBytes E (EndStream.footer E s)) ∧
    s.EndStream E = some (createSkippableFrame E E.seekableTag
      (tableBytes s.frameEntries ++ footerBytes E (EndStream.footer E s)), s) ∧
    (tableBytes s.frameEntries ++ footerBytes E (EndStream.footer E s)).length =
      12 * s.frameEntries.length + 9 := by
  refine ⟨seekTable_eq E s, ?_, ?_⟩
  · rw [EndStream_eq, if_neg (Nat.not_lt.mpr hN)]
  · rw [List.length_append, tableBytes_length, footerBytes_length]

theorem drop_four_le32 (v : Nat) (rest : List Nat) : (le32 v ++ rest).drop 4 = rest := by
  simp [le32]

/-! ## Claims on Encode -/

/-- C1: for every encoder state and every non-empty `src` with `len(src)` and
`len(EncodeAll(src))` at most `maxChunkSize`, `Encode(src)` returns no error and the
entry list afterwards is the old list followed by exactly one entry, whose
`DecompressedSize` is `len(src)`. The constant `maxChunkSize` is declared outside
encoder.go; it is a parameter, with the bound the specification gives it (it fits an
unsigned 32-bit field). -/
theorem Encode_appends_one_entry (E : Env) (s : writerImpl) (src : List Nat)
    (h32 : E.maxChunkSize ≤ 4294967295)
    (hne : src ≠ [])
    (hsrc : src.length ≤ E.maxChunkSize)
    (hdst : (s.enc.EncodeAll src).length ≤ E.maxChunkSize) :
    (s.Encode E src).1.2 = none ∧
    ∃ e : seekTableEntry,
      (s.Encode E src).2.frameEntries = s.frameEntries ++ [e] ∧
      e.DecompressedSize = src.length := by
  rw [Encode_of_within_bounds E s src hne hsrc hdst]
  exact ⟨rfl, _, rfl, uint32_of_le hsrc h32⟩

theorem Encode_appends_one_entry_witness :
    (demoEnv.maxChunkSize ≤ 4294967295 ∧ [104, 101, 108, 108, 111] ≠ ([] : List Nat) ∧
      [104, 101, 108, 108, 111].length ≤ demoEnv.maxChunkSize ∧
      (demoCodec.EncodeAll [104, 101, 108, 108, 111]).length ≤ demoEnv.maxChunkSize) ∧
    ((writerImpl.Encode demoEnv ⟨demoCodec, [⟨9, 8, 7⟩]⟩ [104, 101, 108, 108, 111]).1.2 = none ∧
      ∃ e : seekTableEntry,
        (writerImpl.Encode demoEnv ⟨demoCodec, [⟨9, 8, 7⟩]⟩
          [104, 101, 108, 108, 111]).2.frameEntries = [⟨9, 8, 7⟩] ++ [e] ∧
        e.DecompressedSize = [104, 101, 108, 108, 111].length) :=
  ⟨⟨by decide, by decide, by decide, by decide⟩,
    Encode_appends_one_entry demoEnv ⟨demoCodec, [⟨9, 8, 7⟩]⟩ [104, 101, 108, 108, 111]
      (by decide) (by decide) (by decide) (by decide)⟩

/-- C2: for every call `Encode(src)` on a non-empty `src` that returns no error, the
returned bytes are exactly `EncodeAll(src)` and the `CompressedSize` of the entry the
call appends is the length of the returned bytes (`maxChunkSize` fits 32 bits). -/
theorem Encode_returns_codec_output (E : Env) (s : writerImpl) (src : List Nat)
    (h32 : E.maxChunkSize ≤ 4294967295)
    (hne : src ≠ [])
    (hok : (s.Encode E src).1.2 = none) :
    (s.Encode E src).1.1 = s.enc.EncodeAll src ∧
    ∃ e : seekTableEntry,
      (s.Encode E src).2.frameEntries = s.frameEntries ++ [e] ∧
      e.CompressedSize = (s.Encode E src).1.1.length := by
  obtain ⟨hsrc, hdst⟩ := bounds_of_Encode_ok E s src hne hok
  rw [Encode_of_within_bounds E s src hne hsrc hdst]
  exact ⟨rfl, _, rfl, uint32_of_le hdst h32⟩

theorem Encode_returns_codec_output_witness :
    (demoEnv.maxChunkSize ≤ 4294967295 ∧ [1, 2, 3] ≠ ([] : List Nat) ∧
      (writerImpl.Encode demoEnv ⟨demoCodec, []⟩ [1, 2, 3]).1.2 = none) ∧
    ((writerImpl.Encode demoEnv ⟨demoCodec, []⟩ [1, 2, 3]).1.1 = demoCodec.EncodeAll [1, 2, 3] ∧
      ∃ e : seekTableEntry,
        (writerImpl.Encode demoEnv ⟨demoCodec, []⟩ [1, 2, 3]).2.frameEntries = [] ++ [e] ∧
        e.CompressedSize = (writerImpl.Encode demoEnv ⟨demoCodec, []⟩ [1, 2, 3]).1.1.length) :=
  ⟨⟨by decide, by decide, by decide⟩,
    Encode_returns_codec_output demoEnv ⟨demoCodec, []⟩ [1, 2, 3]
      (by decide) (by decide) (by decide)⟩

/-- C3: for every call `Encode(src)` on a non-empty `src` that returns no error, the
`Checksum` of the appended entry is the 64-bit hash of `src` (the raw input) modulo
`2 ^ 32`; and for every 64-bit value `h` the expression `uint32((h << 32) >> 32)`,
with wrapping 64-bit shifts, is `h` modulo `2 ^ 32`. -/
theorem Encode_checksum_low32 (E : Env) (s : writerImpl) (src : List Nat)
    (hne : src ≠ [])
    (hok : (s.Encode E src).1.2 = none) :
    (∃ e : seekTableEntry,
      (s.Encode E src).2.frameEntries = s.frameEntries ++ [e] ∧
      e.Checksum = (E.Sum64 src % 2 ^ 64) % 2 ^ 32) ∧
    ∀ h : Nat, h < 2 ^ 64 → uint32 (shr64 (shl64 h 32) 32) = h % 2 ^ 32 := by
  obtain ⟨hsrc, hdst⟩ := bounds_of_Encode_ok E s src hne hok
  rw [Encode_of_within_bounds E s src hne hsrc hdst]
  exact ⟨⟨_, rfl, low32_shift _⟩, fun h _ => low32_shift h⟩

theorem Encode_checksum_low32_witness :
    ([1, 2, 3] ≠ ([] : List Nat) ∧
      (writerImpl.Encode demoEnv ⟨demoCodec, []⟩ [1, 2, 3]).1.2 = none) ∧
    ((∃ e : seekTableEntry,
      (writerImpl.Encode demoEnv ⟨demoCodec, []⟩ [1, 2, 3]).2.frameEntries = [] ++ [e] ∧
      e.Checksum = (demoEnv.Sum64 [1, 2, 3] % 2 ^ 64) % 2 ^ 32) ∧
    ∀ h : Nat, h < 2 ^ 64 → uint32 (shr64 (shl64 h 32) 32) = h % 2 ^ 32) :=
  ⟨⟨by decide, by decide⟩,
    Encode_checksum_low32 demoEnv ⟨demoCodec, []⟩ [1, 2, 3] (by decide) (by decide)⟩

/-- C4: in every encoder state, `Encode` of the empty input returns zero bytes and no
error and leaves the encoder, hence its entry list and entry count, unchanged. -/
theorem Encode_empty_is_noop (E : Env) (s : writerImpl) :
    s.Encode E [] = (([], none), s) ∧
    (s.Encode E []).2.frameEntries = s.frameEntries ∧
    (s.Encode E []).2.frameEntries.length = s.frameEntries.length := by
  have h : s.Encode E [] = (([], none), s) := by
    simp [writerImpl.Encode]
  rw [h]
  exact ⟨rfl, rfl, rfl⟩

/-- C5: in every encoder state and for every `src` with `len(src) > maxChunkSize`,
`Encode(src)` returns the chunk-size error and no bytes, leaves the entry list
unchanged, and does so whatever the codec is (the codec is not consulted). -/
theorem Encode_rejects_oversized_input (E : Env) (s : writerImpl) (src : List Nat)
    (hbig : src.length > E.maxChunkSize) :
    (s.Encode E src).1 = ([], some (EncodeError.chunkTooBig src.length E.maxChunkSize)) ∧
    (s.Encode E src).2.frameEntries = s.frameEntries ∧
    ∀ codec : ZSTDEncoder,
      (writerImpl.Encode E ⟨codec, s.frameEntries⟩ src).1 = (s.Encode E src).1 ∧
      (writerImpl.Encode E ⟨codec, s.frameEntries⟩ src).2.frameEntries = s.frameEntries := by
  rw [Encode_of_input_too_big E s src hbig]
  refine ⟨rfl, rfl, fun codec => ?_⟩
  rw [Encode_of_input_too_big E ⟨codec, s.frameEntries⟩ src hbig]
  exact ⟨rfl, rfl⟩

theorem Encode_rejects_oversized_input_witness :
    [1, 2, 3, 4, 5].length > tinyEnv.maxChunkSize ∧
    ((writerImpl.Encode tinyEnv ⟨demoCodec, [⟨9, 8, 7⟩]⟩ [1, 2, 3, 4, 5]).1 =
        ([], some (EncodeError.chunkTooBig [1, 2, 3, 4, 5].length tinyEnv.maxChunkSize)) ∧
      (writerImpl.Encode tinyEnv ⟨demoCodec, [⟨9, 8, 7⟩]⟩ [1, 2, 3, 4, 5]).2.frameEntries =
        [⟨9, 8, 7⟩] ∧
      ∀ codec : ZSTDEncoder,
        (writerImpl.Encode tinyEnv ⟨codec, [⟨9, 8, 7⟩]⟩ [1, 2, 3, 4, 5]).1 =
          (writerImpl.Encode tinyEnv ⟨demoCodec, [⟨9, 8, 7⟩]⟩ [1, 2, 3, 4, 5]).1 ∧
        (writerImpl.Encode tinyEnv ⟨codec, [⟨9, 8, 7⟩]⟩ [1, 2, 3, 4, 5]).2.frameEntries =
          [⟨9, 8, 7⟩]) :=
  ⟨by decide,
    Encode_rejects_oversized_input tinyEnv ⟨demoCodec, [⟨9, 8, 7⟩]⟩ [1, 2, 3, 4, 5]
      (by decide)⟩

/-- C6: in every encoder state and for every non-empty `src` within the size bound
whose compressed output `EncodeAll(src)` is longer than `maxChunkSize`, `Encode(src)`
returns the result-size error and no bytes, and the entry list is unchanged. -/
theorem Encode_rejects_oversized_result (E : Env) (s : writerImpl) (src : List Nat)
    (hne : src ≠ [])
    (hsrc : src.length ≤ E.maxChunkSize)
    (hdst : (s.enc.EncodeAll src).length > E.maxChunkSize) :
    (s.Encode E src).1 =
      ([], some (EncodeError.resultTooBig (s.enc.EncodeAll src).length E.maxChunkSize)) ∧
    (s.Encode E src).2.frameEntries = s.frameEntries := by
  rw [Encode_of_result_too_big E s src hne hsrc hdst]
  exact ⟨rfl, rfl⟩

theorem Encode_rejects_oversized_result_witness :
    ([1, 2, 3] ≠ ([] : List Nat) ∧ [1, 2, 3].length ≤ tinyEnv.maxChunkSize ∧
      (demoCodec.EncodeAll [1, 2, 3]).length > tinyEnv.maxChunkSize) ∧
    ((writerImpl.Encode tinyEnv ⟨demoCodec, [⟨9, 8, 7⟩]⟩ [1, 2, 3]).1 =
        ([], some (EncodeError.resultTooBig (demoCodec.EncodeAll [1, 2, 3]).length
          tinyEnv.maxChunkSize)) ∧
      (writerImpl.Encode tinyEnv ⟨demoCodec, [⟨9, 8, 7⟩]⟩ [1, 2, 3]).2.frameEntries =
        [⟨9, 8, 7⟩]) :=
  ⟨⟨by decide, by decide, by decide⟩,
    Encode_rejects_oversized_result tinyEnv ⟨demoCodec, [⟨9, 8, 7⟩]⟩ [1, 2, 3]
      (by decide) (by decide) (by decide)⟩

/-! ## Claims on EndStream -/

/-- C7: for every session of `Encode` calls on a fresh encoder in which `N` calls were
non-empty and returned no error, with `N ≤ maxNumberOfFrames`, the seek table that
`EndStream` builds and hands to `createSkippableFrame` has length exactly `12 * N + 9`,
and the `NumberOfFrames` field of its footer is `N`, also when read back from the
payload at offset `12 * N` (`maxNumberOfFrames` fits 32 bits). -/
theorem EndStream_payload_length (E : Env) (codec : ZSTDEncoder) (srcs : List (List Nat))
    (h32 : E.maxNumberOfFrames ≤ 4294967295)
    (hN : (successfulInputs E (NewEncoder codec) srcs).length ≤ E.maxNumberOfFrames) :
    ∃ payload : List Nat,
      EndStream.seekTable E (encodeCalls E (NewEncoder codec) srcs).2 = some payload ∧
      (encodeCalls E (NewEncoder codec) srcs).2.EndStream E =
        some (createSkippableFrame E E.seekableTag payload,
          (encodeCalls E (NewEncoder codec) srcs).2) ∧
      payload.length = 12 * (successfulInputs E (NewEncoder codec) srcs).length + 9 ∧
      (EndStream.footer E (encodeCalls E (NewEncoder codec) srcs).2).NumberOfFrames =
        (successfulInputs E (NewEncoder codec) srcs).length ∧
      readLE32 (payload.drop (12 * (successfulInputs E (NewEncoder codec) srcs).length)) =
        some (successfulInputs E (NewEncoder codec) srcs).length := by
  have hlen : (encodeCalls E (NewEncoder codec) srcs).2.frameEntries.length =
      (successfulInputs E (NewEncoder codec) srcs).length := by
    rw [encodeCalls_frameEntries E srcs (NewEncoder codec)]
    simp [NewEncoder]
  have hN2 : (encodeCalls E (NewEncoder codec) srcs).2.frameEntries.length ≤
      E.maxNumberOfFrames := by
    rw [hlen]; exact hN
  obtain ⟨h1, h2, h3⟩ := payload_facts E _ hN2
  have hf := footer_NumberOfFrames E _ h32 hN2
  refine ⟨_, h1, h2, ?_, ?_, ?_⟩
  · rw [h3, hlen]
  · rw [hf, hlen]
  · rw [← hlen, drop_table_append_zero]
    simp only [footerBytes, List.append_assoc]
    have hlt : (encodeCalls E (NewEncoder codec) srcs).2.frameEntries.length < 2 ^ 32 :=
      Nat.lt_of_le_of_lt (Nat.le_trans hN2 h32) (by decide)
    rw [readLE32_le32, hf, Nat.mod_eq_of_lt hlt]

set_option maxRecDepth 100000 in
theorem EndStream_payload_length_witness :
    (demoEnv.maxNumberOfFrames ≤ 4294967295 ∧
      (successfulInputs demoEnv (NewEncoder demoCodec) demoChunks).length ≤
        demoEnv.maxNumberOfFrames ∧
      12 * (successfulInputs demoEnv (NewEncoder demoCodec) demoChunks).length + 9 = 33) ∧
    ∃ payload : List Nat,
      EndStream.seekTable demoEnv (encodeCalls demoEnv (NewEncoder demoCodec) demoChunks).2 =
        some payload ∧
      (encodeCalls demoEnv (NewEncoder demoCodec) demoChunks).2.EndStream demoEnv =
        some (createSkippableFrame demoEnv demoEnv.seekableTag payload,
          (encodeCalls demoEnv (NewEncoder demoCodec) demoChunks).2) ∧
      payload.length = 12 * (successfulInputs demoEnv (NewEncoder demoCodec) demoChunks).length + 9 ∧
      (EndStream.footer demoEnv
        (encodeCalls demoEnv (NewEncoder demoCodec) demoChunks).2).NumberOfFrames =
        (successfulInputs demoEnv (NewEncoder demoCodec) demoChunks).length ∧
      readLE32 (payload.drop
        (12 * (successfulInputs demoEnv (NewEncoder demoCodec) demoChunks).length)) =
        some (successfulInputs demoEnv (NewEncoder demoCodec) demoChunks).length :=
  ⟨⟨by decide, by decide, by decide⟩,
    EndStream_payload_length demoEnv demoCodec demoChunks (by decide) (by decide)⟩

/-- C8: for every session of `Encode` calls on a fresh encoder followed by an
`EndStream` that returns a frame and no error, and every `i` below the number of calls
that were non-empty and returned no error, bytes `[12*i, 12*i+12)` of the seek table
handed to `createSkippableFrame` are the entry of the `i`-th such call, in call order:
`CompressedSize`, `DecompressedSize`, `Checksum`, each little-endian on 4 bytes. -/
theorem EndStream_entries_in_call_order (E : Env) (codec : ZSTDEncoder)
    (srcs : List (List Nat)) (frame : List Nat) (i : Nat)
    (hend : ((encodeCalls E (NewEncoder codec) srcs).2.EndStream E).map Prod.fst =
      some (frame, none))
    (hi : i < (successfulInputs E (NewEncoder codec) srcs).length) :
    ∃ (payload src : List Nat) (e : seekTableEntry),
      EndStream.seekTable E (encodeCalls E (NewEncoder codec) srcs).2 = some payload ∧
      createSkippableFrame E E.seekableTag payload = (frame, none) ∧
      (successfulInputs E (NewEncoder codec) srcs)[i]? = some src ∧
      e = ((NewEncoder codec).encodeOne E src).2.1 ∧
      (payload.drop (12 * i)).take 12 =
        le32 e.CompressedSize ++ le32 e.DecompressedSize ++ le32 e.Checksum ∧
      readLE32 (payload.drop (12 * i)) = some e.CompressedSize ∧
      readLE32 (payload.drop (12 * i + 4)) = some e.DecompressedSize ∧
      readLE32 (payload.drop (12 * i + 8)) = some e.Checksum := by
  have hfe := encodeCalls_frameEntries E srcs (NewEncoder codec)
  have hsrc : (successfulInputs E (NewEncoder codec) srcs)[i]? =
      some ((successfulInputs E (NewEncoder codec) srcs)[i]) := List.getElem?_eq_getElem hi
  have hget : (encodeCalls E (NewEncoder codec) srcs).2.frameEntries[i]? =
      some (((NewEncoder codec).encodeOne E
        ((successfulInputs E (NewEncoder codec) srcs)[i])).2.1) := by
    rw [hfe, show (NewEncoder codec).frameEntries = [] from rfl, List.nil_append,
      List.getElem?_map, hsrc]
    rfl
  have hwrap : createSkippableFrame E E.seekableTag
      (tableBytes (encodeCalls E (NewEncoder codec) srcs).2.frameEntries ++
        footerBytes E (EndStream.footer E (encodeCalls E (NewEncoder codec) srcs).2)) =
      (frame, none) := by
    rw [EndStream_eq] at hend
    by_cases hmany : (encodeCalls E (NewEncoder codec) srcs).2.frameEntries.length >
        E.maxNumberOfFrames
    · rw [if_pos hmany] at hend
      simp at hend
    · rw [if_neg hmany] at hend
      simpa using hend
  have hslot := tableBytes_slot _ i _
    (footerBytes E (EndStream.footer E (encodeCalls E (NewEncoder codec) srcs).2)) hget
  obtain ⟨hc, hd, hk⟩ := encodeOne_entry_lt E (NewEncoder codec)
    ((successfulInputs E (NewEncoder codec) srcs)[i])
  refine ⟨_, _, _, seekTable_eq E _, hwrap, hsrc, rfl, ?_, ?_, ?_, ?_⟩
  · rw [hslot]
    have h12 : 12 = (entryBytes (((NewEncoder codec).encodeOne E
        ((successfulInputs E (NewEncoder codec) srcs)[i])).2.1)).length := by
      rw [entryBytes_length]
    conv => lhs; rw [h12]
    rw [List.take_left]
    rfl
  · rw [hslot]
    simp only [entryBytes, List.append_assoc]
    rw [readLE32_le32, Nat.mod_eq_of_lt hc]
  · have h4 : ∀ l : List Nat, l.drop (12 * i + 4) = (l.drop (12 * i)).drop 4 := by
      intro l
      rw [List.drop_drop]
    rw [h4, hslot]
    simp only [entryBytes, List.append_assoc]
    rw [drop_four_le32, readLE32_le32, Nat.mod_eq_of_lt hd]
  · have h8 : ∀ l : List Nat, l.drop (12 * i + 8) = ((l.drop (12 * i)).drop 4).drop 4 := by
      intro l
      rw [List.drop_drop, List.drop_drop]
    rw [h8, hslot]
    simp only [entryBytes, List.append_assoc]
    rw [drop_four_le32, drop_four_le32, readLE32_le32, Nat.mod_eq_of_lt hk]

theorem EndStream_entries_in_call_order_witness :
    ((writerImpl.EndStream tinyEnv (encodeCalls tinyEnv (NewEncoder demoCodec) mixedCalls).2).map
        Prod.fst = some (mixedFrame, none) ∧
      1 < (successfulInputs tinyEnv (NewEncoder demoCodec) mixedCalls).length) ∧
    ∃ (payload src : List Nat) (e : seekTableEntry),
      EndStream.seekTable tinyEnv (encodeCalls tinyEnv (NewEncoder demoCodec) mixedCalls).2 =
        some payload ∧
      createSkippableFrame tinyEnv tinyEnv.seekableTag payload = (mixedFrame, none) ∧
      (successfulInputs tinyEnv (NewEncoder demoCodec) mixedCalls)[1]? = some src ∧
      e = ((NewEncoder demoCodec).encodeOne tinyEnv src).2.1 ∧
      (payload.drop (12 * 1)).take 12 =
        le32 e.CompressedSize ++ le32 e.DecompressedSize ++ le32 e.Checksum ∧
      readLE32 (payload.drop (12 * 1)) = some e.CompressedSize ∧
      readLE32 (payload.drop (12 * 1 + 4)) = some e.DecompressedSize ∧
      readLE32 (payload.drop (12 * 1 + 8)) = some e.Checksum :=
  ⟨⟨by decide, by decide⟩,
    EndStream_entries_in_call_order tinyEnv demoCodec mixedCalls mixedFrame 1
      (by decide) (by decide)⟩

/-- C9: for every encoder state with `N ≤ maxNumberOfFrames` entries, the seek table
that `EndStream` hands to `createSkippableFrame` has length `12 * N + 9` and ends with
the footer: offsets `12*N .. 12*N+3` hold `N` as a little-endian 32-bit integer, offset
`12*N+4` holds the descriptor byte with the checksum-present flag set, and offsets
`12*N+5 .. 12*N+8` hold `seekableMagicNumber` as a little-endian 32-bit integer
(`maxNumberOfFrames` fits 32 bits). -/
theorem EndStream_footer_layout (E : Env) (s : writerImpl)
    (h32 : E.maxNumberOfFrames ≤ 4294967295)
    (hN : s.frameEntries.length ≤ E.maxNumberOfFrames) :
    ∃ payload : List Nat,
      EndStream.seekTable E s = some payload ∧
      s.EndStream E = some (createSkippableFrame E E.seekableTag payload, s) ∧
      payload.length = 12 * s.frameEntries.length + 9 ∧
      (payload.drop (12 * s.frameEntries.length)).take 4 = le32 s.frameEntries.length ∧
      readLE32 (payload.drop (12 * s.frameEntries.length)) = some s.frameEntries.length ∧
      payload[12 * s.frameEntries.length + 4]? = some (seekTableDescriptor.toByte E ⟨true⟩) ∧
      seekTableDescriptor.toByte E ⟨true⟩ = E.checksumFlagMask % 256 ∧
      payload.drop (12 * s.frameEntries.length + 5) = le32 E.seekableMagicNumber := by
  obtain ⟨h1, h2, h3⟩ := payload_facts E s hN
  have hf := footer_NumberOfFrames E s h32 hN
  have hlt : s.frameEntries.length < 2 ^ 32 :=
    Nat.lt_of_le_of_lt (Nat.le_trans hN h32) (by decide)
  have hfb : footerBytes E (EndStream.footer E s) =
      le32 s.frameEntries.length ++
        (seekTableDescriptor.toByte E ⟨true⟩ :: le32 E.seekableMagicNumber) := by
    simp only [footerBytes, hf, List.append_assoc, List.singleton_append]
    rfl
  refine ⟨_, h1, h2, h3, ?_, ?_, ?_, ?_, ?_⟩
  · rw [drop_table_append_zero, hfb]
    simp [le32]
  · rw [drop_table_append_zero, hfb, readLE32_le32, Nat.mod_eq_of_lt hlt]
  · rw [getElem_table_append, hfb]
    simp [le32]
  · simp [seekTableDescriptor.toByte]
  · rw [drop_table_append, hfb]
    simp [le32]

theorem EndStream_footer_layout_witness :
    (demoEnv.maxNumberOfFrames ≤ 4294967295 ∧
      ([⟨7, 5, 305419896⟩, ⟨4, 2, 10⟩] : List seekTableEntry).length ≤
        demoEnv.maxNumberOfFrames) ∧
    ∃ payload : List Nat,
      EndStream.seekTable demoEnv ⟨demoCodec, [⟨7, 5, 305419896⟩, ⟨4, 2, 10⟩]⟩ = some payload ∧
      writerImpl.EndStream demoEnv ⟨demoCodec, [⟨7, 5, 305419896⟩, ⟨4, 2, 10⟩]⟩ =
        some (createSkippableFrame demoEnv demoEnv.seekableTag payload,
          ⟨demoCodec, [⟨7, 5, 305419896⟩, ⟨4, 2, 10⟩]⟩) ∧
      payload.length = 12 * ([⟨7, 5, 305419896⟩, ⟨4, 2, 10⟩] : List seekTableEntry).length + 9 ∧
      (payload.drop (12 * ([⟨7, 5, 305419896⟩, ⟨4, 2, 10⟩] : List seekTableEntry).length)).take 4 =
        le32 ([⟨7, 5, 305419896⟩, ⟨4, 2, 10⟩] : List seekTableEntry).length ∧
      readLE32 (payload.drop (12 * ([⟨7, 5, 305419896⟩, ⟨4, 2, 10⟩] : List seekTableEntry).length)) =
        some ([⟨7, 5, 305419896⟩, ⟨4, 2, 10⟩] : List seekTableEntry).length ∧
      payload[12 * ([⟨7, 5, 305419896⟩, ⟨4, 2, 10⟩] : List seekTableEntry).length + 4]? =
        some (seekTableDescriptor.toByte demoEnv ⟨true⟩) ∧
      seekTableDescriptor.toByte demoEnv ⟨true⟩ = demoEnv.checksumFlagMask % 256 ∧
      payload.drop (12 * ([⟨7, 5, 305419896⟩, ⟨4, 2, 10⟩] : List seekTableEntry).length + 5) =
        le32 demoEnv.seekableMagicNumber :=
  ⟨⟨by decide, by decide⟩,
    EndStream_footer_layout demoEnv ⟨demoCodec, [⟨7, 5, 305419896⟩, ⟨4, 2, 10⟩]⟩
      (by decide) (by decide)⟩

/-- C10, as stated, fails: for the encoder holding the single entry
`{CompressedSize: 7, DecompressedSize: 5, Checksum: 0x12345678}`, `EndStream` returns a
29-byte frame around a 21-byte payload; bytes 16-19 of the payload are the descriptor
byte and the first three bytes of the magic number, bytes 16-19 of the frame are the
checksum of the entry, and neither is the value 1 on four little-endian bytes. The
value 1 (`NumberOfFrames`) is at bytes 12-15 of the payload. -/
theorem bytes_16_to_19_not_frame_count :
    EndStream.seekTable demoEnv ⟨demoCodec, [⟨7, 5, 305419896⟩]⟩ =
      some [7, 0, 0, 0, 5, 0, 0, 0, 120, 86, 52, 18, 1, 0, 0, 0, 128, 177, 234, 146, 143] ∧
    (writerImpl.EndStream demoEnv ⟨demoCodec, [⟨7, 5, 305419896⟩]⟩).map Prod.fst =
      some ([94, 42, 77, 24, 21, 0, 0, 0, 7, 0, 0, 0, 5, 0, 0, 0, 120, 86, 52, 18, 1, 0, 0, 0,
        128, 177, 234, 146, 143], none) ∧
    le32 1 = [1, 0, 0, 0] ∧
    (List.drop 16
      [7, 0, 0, 0, 5, 0, 0, 0, 120, 86, 52, 18, 1, 0, 0, 0, 128, 177, 234, 146, 143]).take 4 =
      [128, 177, 234, 146] ∧
    (List.drop 16
      [94, 42, 77, 24, 21, 0, 0, 0, 7, 0, 0, 0, 5, 0, 0, 0, 120, 86, 52, 18, 1, 0, 0, 0,
        128, 177, 234, 146, 143]).take 4 = [120, 86, 52, 18] ∧
    ¬ (∀ payload : List Nat,
        EndStream.seekTable demoEnv ⟨demoCodec, [⟨7, 5, 305419896⟩]⟩ = some payload →
        (payload.drop 16).take 4 = le32 1) ∧
    ¬ (∀ frame : List Nat,
        (writerImpl.EndStream demoEnv ⟨demoCodec, [⟨7, 5, 305419896⟩]⟩).map Prod.fst =
          some (frame, none) →
        (frame.drop 16).take 4 = le32 1) := by
  have hp : EndStream.seekTable demoEnv ⟨demoCodec, [⟨7, 5, 305419896⟩]⟩ =
      some [7, 0, 0, 0, 5, 0, 0, 0, 120, 86, 52, 18, 1, 0, 0, 0, 128, 177, 234, 146, 143] := by
    decide
  have hf : (writerImpl.EndStream demoEnv ⟨demoCodec, [⟨7, 5, 305419896⟩]⟩).map Prod.fst =
      some ([94, 42, 77, 24, 21, 0, 0, 0, 7, 0, 0, 0, 5, 0, 0, 0, 120, 86, 52, 18, 1, 0, 0, 0,
        128, 177, 234, 146, 143], none) := by
    decide
  refine ⟨hp, hf, by decide, by decide, by decide, ?_, ?_⟩
  · intro h
    exact absurd (h _ hp) (by decide)
  · intro h
    exact absurd (h _ hf) (by decide)

/-- C10, amended: for the encoder holding exactly one entry
`{CompressedSize: 7, DecompressedSize: 5, Checksum: H}`, `EndStream` returns a wrapped
frame (8 header bytes, the second four being the length 21) whose inner payload is 21
bytes long, whose payload bytes 12-15 equal the value 1 (`NumberOfFrames`), and whose
final 4 bytes equal `seekableMagicNumber`; the constants admit one frame and a 21-byte
payload. -/
theorem EndStream_single_entry (E : Env) (codec : ZSTDEncoder) (H : Nat)
    (hframes : 1 ≤ E.maxNumberOfFrames) (hsize : 21 ≤ E.maxFrameSize) :
    ∃ payload frame : List Nat,
      EndStream.seekTable E ⟨codec, [⟨7, 5, H⟩]⟩ = some payload ∧
      (writerImpl.EndStream E ⟨codec, [⟨7, 5, H⟩]⟩).map Prod.fst = some (frame, none) ∧
      frame.drop 8 = payload ∧
      (frame.drop 4).take 4 = le32 21 ∧
      payload.length = 21 ∧
      (payload.drop 12).take 4 = le32 1 ∧
      readLE32 (payload.drop 12) = some 1 ∧
      payload.drop 17 = le32 E.seekableMagicNumber ∧
      frame.drop 25 = le32 E.seekableMagicNumber := by
  have hN : (⟨codec, [⟨7, 5, H⟩]⟩ : writerImpl).frameEntries.length ≤ E.maxNumberOfFrames :=
    hframes
  obtain ⟨h1, h2, h3⟩ := payload_facts E ⟨codec, [⟨7, 5, H⟩]⟩ hN
  have hlen : (tableBytes [⟨7, 5, H⟩] ++
      footerBytes E (EndStream.footer E ⟨codec, [⟨7, 5, H⟩]⟩)).length = 21 := h3
  have hwrap : createSkippableFrame E E.seekableTag
      (tableBytes [⟨7, 5, H⟩] ++ footerBytes E (EndStream.footer E ⟨codec, [⟨7, 5, H⟩]⟩)) =
      (le32 (E.skippableFrameType E.seekableTag) ++ le32 21 ++
        (tableBytes [⟨7, 5, H⟩] ++ footerBytes E (EndStream.footer E ⟨codec, [⟨7, 5, H⟩]⟩)),
        none) := by
    rw [createSkippableFrame, hlen, if_neg (Nat.not_lt.mpr hsize)]
  refine ⟨tableBytes [⟨7, 5, H⟩] ++ footerBytes E (EndStream.footer E ⟨codec, [⟨7, 5, H⟩]⟩),
    le32 (E.skippableFrameType E.seekableTag) ++ le32 21 ++
      (tableBytes [⟨7, 5, H⟩] ++ footerBytes E (EndStream.footer E ⟨codec, [⟨7, 5, H⟩]⟩)),
    h1, ?_, ?_, ?_, hlen, ?_, ?_, ?_, ?_⟩
  · rw [h2]
    exact congrArg some hwrap
  · simp [le32]
  · simp [le32]
  · simp [tableBytes, entryBytes, footerBytes, le32, EndStream.footer, uint32]
  · simp [tableBytes, entryBytes, footerBytes, le32, EndStream.footer, uint32, readLE32]
  · simp [tableBytes, entryBytes, footerBytes, le32, EndStream.footer]
  · simp [tableBytes, entryBytes, footerBytes, le32, EndStream.footer]

theorem EndStream_single_entry_witness :
    (1 ≤ demoEnv.maxNumberOfFrames ∧ 21 ≤ demoEnv.maxFrameSize) ∧
    ∃ payload frame : List Nat,
      EndStream.seekTable demoEnv ⟨demoCodec, [⟨7, 5, 305419896⟩]⟩ = some payload ∧
      (writerImpl.EndStream demoEnv ⟨demoCodec, [⟨7, 5, 305419896⟩]⟩).map Prod.fst =
        some (frame, none) ∧
      frame.drop 8 = payload ∧
      (frame.drop 4).take 4 = le32 21 ∧
      payload.length = 21 ∧
      (payload.drop 12).take 4 = le32 1 ∧
      readLE32 (payload.drop 12) = some 1 ∧
      payload.drop 17 = le32 demoEnv.seekableMagicNumber ∧
      frame.drop 25 = le32 demoEnv.seekableMagicNumber :=
  ⟨⟨by decide, by decide⟩,
    EndStream_single_entry demoEnv demoCodec 305419896 (by decide) (by decide)⟩

/-! ## Lemmas on sequences of calls -/

/-- The call `EndStream` returns, and the encoder afterwards is the encoder before. -/
theorem EndStream_state (E : Env) (s : writerImpl) :
    ∃ r : List Nat × Option EncodeError, s.EndStream E = some (r, s) := by
  rw [EndStream_eq]
  by_cases h : s.frameEntries.length > E.maxNumberOfFrames
  · rw [if_pos h]
    exact ⟨_, rfl⟩
  · rw [if_neg h]
    exact ⟨_, rfl⟩

/-- The calls of `EndStream` do not count: the encoder after a sequence of calls is
the encoder after its `Encode` calls. -/
theorem runCalls_eq (E : Env) (calls : List Call) :
    ∀ s : writerImpl, runCalls E s calls = some (encodeCalls E s (encodeInputs calls)).2 := by
  induction calls with
  | nil =>
    intro s
    rfl
  | cons c rest ih =>
    intro s
    cases c with
    | Encode src =>
      simp only [runCalls, encodeInputs, encodeCalls]
      exact ih _
    | EndStream =>
      obtain ⟨r, hr⟩ := EndStream_state E s
      simp only [runCalls, encodeInputs, hr]
      exact ih s

/-! ## Claims on the errors and the state of EndStream -/

/-- C11: in every encoder state whose entry count exceeds `maxNumberOfFrames`,
`EndStream` returns the frame-count error and no bytes (and leaves the encoder as it
was). -/
theorem EndStream_rejects_too_many_frames (E : Env) (s : writerImpl)
    (hmany : s.frameEntries.length > E.maxNumberOfFrames) :
    s.EndStream E =
      some (([], some (EncodeError.tooManyFrames s.frameEntries.length
        E.maxNumberOfFrames)), s) := by
  simp only [writerImpl.EndStream, if_pos hmany]

theorem EndStream_rejects_too_many_frames_witness :
    (⟨demoCodec, threeEntries⟩ : writerImpl).frameEntries.length > tinyEnv.maxNumberOfFrames ∧
    writerImpl.EndStream tinyEnv ⟨demoCodec, threeEntries⟩ =
      some (([], some (EncodeError.tooManyFrames
        (⟨demoCodec, threeEntries⟩ : writerImpl).frameEntries.length
        tinyEnv.maxNumberOfFrames)), ⟨demoCodec, threeEntries⟩) :=
  ⟨by decide, EndStream_rejects_too_many_frames tinyEnv ⟨demoCodec, threeEntries⟩ (by decide)⟩

/-- C12, as stated, fails: with a frame-size limit of 20 bytes, the encoder holding one
entry (within `maxNumberOfFrames`) gets the frame-size error of `createSkippableFrame`
from `EndStream`, and no bytes; and with the 32-bit limits of `demoEnv`, the encoder
holding 357913941 entries, within `maxNumberOfFrames`, has a payload of 4294967301
bytes and gets the same error. -/
theorem EndStream_frame_size_error :
    ((⟨demoCodec, [⟨7, 5, 1⟩]⟩ : writerImpl).frameEntries.length ≤ narrowEnv.maxNumberOfFrames ∧
      (writerImpl.EndStream narrowEnv ⟨demoCodec, [⟨7, 5, 1⟩]⟩).map Prod.fst =
        some ([], some (EncodeError.frameTooBig 21 20))) ∧
    ((⟨demoCodec, List.replicate 357913941 ⟨0, 0, 0⟩⟩ : writerImpl).frameEntries.length ≤
        demoEnv.maxNumberOfFrames ∧
      (writerImpl.EndStream demoEnv
        ⟨demoCodec, List.replicate 357913941 ⟨0, 0, 0⟩⟩).map Prod.fst =
        some ([], some (EncodeError.frameTooBig 4294967301 4294967295))) := by
  refine ⟨⟨by decide, by decide⟩, ?_, ?_⟩
  · show (List.replicate 357913941 (⟨0, 0, 0⟩ : seekTableEntry)).length ≤ 4294967295
    rw [List.length_replicate]
    decide
  · have hlen : (⟨demoCodec, List.replicate 357913941 ⟨0, 0, 0⟩⟩ :
        writerImpl).frameEntries.length = 357913941 := List.length_replicate _ _
    have hN : (⟨demoCodec, List.replicate 357913941 ⟨0, 0, 0⟩⟩ :
        writerImpl).frameEntries.length ≤ demoEnv.maxNumberOfFrames := by
      rw [hlen]
      decide
    obtain ⟨_, h2, h3⟩ := payload_facts demoEnv _ hN
    rw [hlen] at h3
    rw [h2, Option.map_some', createSkippableFrame, h3]
    rfl

/-- The result of `createSkippableFrame` on a payload within the frame-size limit. -/
theorem createSkippableFrame_of_le (E : Env) (tag : Nat) (payload : List Nat)
    (h : payload.length ≤ E.maxFrameSize) :
    createSkippableFrame E tag payload =
      (le32 (E.skippableFrameType tag) ++ le32 payload.length ++ payload, none) := by
  rw [createSkippableFrame, if_neg (Nat.not_lt.mpr h)]

/-- The result of `createSkippableFrame` on a payload over the frame-size limit. -/
theorem createSkippableFrame_of_gt (E : Env) (tag : Nat) (payload : List Nat)
    (h : payload.length > E.maxFrameSize) :
    createSkippableFrame E tag payload =
      ([], some (EncodeError.frameTooBig payload.length E.maxFrameSize)) := by
  rw [createSkippableFrame, if_pos h]

/-- C12, amended: for every encoder state whose entry count `N` is at most
`maxNumberOfFrames` and whose seek table of `12 * N + 9` bytes is within the frame-size
limit of `createSkippableFrame`, `EndStream` returns the index frame bytes with no
error; and in every state, an error returned by `EndStream` is the frame-count error
or the frame-size error of `createSkippableFrame`. -/
theorem EndStream_errors (E : Env) (s : writerImpl) :
    (s.frameEntries.length ≤ E.maxNumberOfFrames →
      12 * s.frameEntries.length + 9 ≤ E.maxFrameSize →
      ∃ frame : List Nat, s.EndStream E = some ((frame, none), s) ∧
        frame.length = 12 * s.frameEntries.length + 17) ∧
    (∀ err : EncodeError, (s.EndStream E).map (fun p => p.1.2) = some (some err) →
      err = EncodeError.tooManyFrames s.frameEntries.length E.maxNumberOfFrames ∨
      err = EncodeError.frameTooBig (12 * s.frameEntries.length + 9) E.maxFrameSize) := by
  constructor
  · intro hN hsize
    obtain ⟨_, h2, h3⟩ := payload_facts E s hN
    rw [h2, createSkippableFrame_of_le E _ _ (by rw [h3]; exact hsize)]
    refine ⟨_, rfl, ?_⟩
    simp only [List.length_append, h3, le32, List.length_cons, List.length_nil]
    omega
  · intro err herr
    by_cases hN : s.frameEntries.length ≤ E.maxNumberOfFrames
    · obtain ⟨_, h2, h3⟩ := payload_facts E s hN
      rw [h2] at herr
      by_cases hsize : 12 * s.frameEntries.length + 9 ≤ E.maxFrameSize
      · rw [createSkippableFrame_of_le E _ _ (by rw [h3]; exact hsize)] at herr
        simp at herr
      · rw [createSkippableFrame_of_gt E _ _ (by rw [h3]; omega), h3] at herr
        simp only [Option.map_some', Option.some.injEq] at herr
        exact Or.inr herr.symm
    · rw [EndStream_eq, if_pos (Nat.lt_of_not_le hN)] at herr
      simp only [Option.map_some', Option.some.injEq] at herr
      exact Or.inl herr.symm

theorem EndStream_errors_witness :
    ((⟨demoCodec, threeEntries⟩ : writerImpl).frameEntries.length ≤ demoEnv.maxNumberOfFrames ∧
      12 * (⟨demoCodec, threeEntries⟩ : writerImpl).frameEntries.length + 9 ≤
        demoEnv.maxFrameSize) ∧
    ∃ frame : List Nat,
      writerImpl.EndStream demoEnv ⟨demoCodec, threeEntries⟩ =
        some ((frame, none), ⟨demoCodec, threeEntries⟩) ∧
      frame.length = 12 * (⟨demoCodec, threeEntries⟩ : writerImpl).frameEntries.length + 17 :=
  ⟨⟨by decide, by decide⟩,
    (EndStream_errors demoEnv ⟨demoCodec, threeEntries⟩).1 (by decide) (by decide)⟩

/-- C13, as stated, fails: there is no Closed state. After an `EndStream` that
succeeded (fresh encoder, `demoEnv`), `Encode` of three bytes returns the compressed
bytes and no error and appends an entry, and a second `EndStream` returns a frame and
no error; after an `EndStream` that failed on the frame count (three entries,
`tinyEnv`), `Encode` of one byte is accepted as well and appends a fourth entry. -/
theorem Encode_accepted_after_EndStream :
    ((writerImpl.EndStream demoEnv (NewEncoder demoCodec)).map (fun p => p.1.2) =
        some none ∧
      (writerImpl.EndStream demoEnv (NewEncoder demoCodec)).map
        (fun p => (p.2.Encode demoEnv [1, 2, 3]).1) = some ([40, 181, 1, 2, 3], none) ∧
      (writerImpl.EndStream demoEnv (NewEncoder demoCodec)).map
        (fun p => (p.2.Encode demoEnv [1, 2, 3]).2.frameEntries) = some [⟨5, 3, 7⟩] ∧
      ((writerImpl.EndStream demoEnv (NewEncoder demoCodec)).bind
        (fun p => p.2.EndStream demoEnv)).map (fun p => p.1.2) = some none) ∧
    ((writerImpl.EndStream tinyEnv ⟨demoCodec, threeEntries⟩).map (fun p => p.1) =
        some ([], some (EncodeError.tooManyFrames 3 2)) ∧
      (writerImpl.EndStream tinyEnv ⟨demoCodec, threeEntries⟩).map
        (fun p => (p.2.Encode tinyEnv [9]).1) = some ([40, 181, 9], none) ∧
      (writerImpl.EndStream tinyEnv ⟨demoCodec, threeEntries⟩).map
        (fun p => (p.2.Encode tinyEnv [9]).2.frameEntries) =
        some (threeEntries ++ [⟨3, 1, 10⟩])) := by
  decide

/-- C13, amended: `EndStream` has no Closed state. After `EndStream` has been called
(whether it succeeded or failed) the encoder is as it was before the call: a
subsequent `Encode` returns what it would have returned before the call and appends
what it would have appended, and a subsequent `EndStream` returns the result of the
first. -/
theorem calls_after_EndStream (E : Env) (s : writerImpl) (src : List Nat) :
    (s.EndStream E).map (fun p => (p.2.Encode E src).1) = some (s.Encode E src).1 ∧
    (s.EndStream E).map (fun p => (p.2.Encode E src).2.frameEntries) =
      some (s.Encode E src).2.frameEntries ∧
    (s.EndStream E).bind (fun p => p.2.EndStream E) = s.EndStream E := by
  obtain ⟨r, hr⟩ := EndStream_state E s
  rw [hr]
  exact ⟨rfl, rfl, hr⟩

/-- C14: `EndStream` only reads the encoder: in every state it returns (it does not
panic), whether it succeeds or fails the entry list after the call is the entry list
before it, and a second `EndStream` right after it returns the same result. -/
theorem EndStream_reads_only (E : Env) (s : writerImpl) :
    (∃ r : List Nat × Option EncodeError, s.EndStream E = some (r, s)) ∧
    (s.EndStream E).map (fun p => p.2.frameEntries) = some s.frameEntries ∧
    ((s.EndStream E).bind (fun p => p.2.EndStream E)).map Prod.fst =
      (s.EndStream E).map Prod.fst := by
  obtain ⟨r, hr⟩ := EndStream_state E s
  refine ⟨⟨r, hr⟩, ?_, ?_⟩
  · rw [hr]
    rfl
  · rw [hr, Option.some_bind, hr]

/-- C15: for every encoder state with `N ≤ maxNumberOfFrames` entries on which
`EndStream` returns a frame and no error, the frame is the skippable-frame envelope of
the seek table: the 4-byte frame-type identifier of `seekableTag`, the payload length
`12 * N + 9` on 4 little-endian bytes, then the payload verbatim, `12 * N + 17` bytes
in all. -/
theorem EndStream_frame_envelope (E : Env) (s : writerImpl) (frame : List Nat)
    (hN : s.frameEntries.length ≤ E.maxNumberOfFrames)
    (hok : (s.EndStream E).map Prod.fst = some (frame, none)) :
    ∃ payload : List Nat,
      EndStream.seekTable E s = some payload ∧
      payload.length = 12 * s.frameEntries.length + 9 ∧
      frame = le32 (E.skippableFrameType E.seekableTag) ++
        le32 (12 * s.frameEntries.length + 9) ++ payload ∧
      frame.take 4 = le32 (E.skippableFrameType E.seekableTag) ∧
      (frame.drop 4).take 4 = le32 (12 * s.frameEntries.length + 9) ∧
      frame.drop 8 = payload ∧
      frame.length = 12 * s.frameEntries.length + 17 ∧
      (E.maxFrameSize ≤ 4294967295 →
        readLE32 (frame.drop 4) = some (12 * s.frameEntries.length + 9)) := by
  obtain ⟨h1, h2, h3⟩ := payload_facts E s hN
  rw [h2] at hok
  have hsize : (tableBytes s.frameEntries ++
      footerBytes E (EndStream.footer E s)).length ≤ E.maxFrameSize := by
    by_cases h : (tableBytes s.frameEntries ++
        footerBytes E (EndStream.footer E s)).length ≤ E.maxFrameSize
    · exact h
    · rw [createSkippableFrame_of_gt E _ _ (Nat.lt_of_not_le h)] at hok
      simp at hok
  rw [createSkippableFrame_of_le E _ _ hsize, h3] at hok
  simp only [Option.map_some', Option.some.injEq, Prod.mk.injEq, and_true] at hok
  subst hok
  refine ⟨_, h1, h3, rfl, ?_, ?_, ?_, ?_, ?_⟩
  · simp [le32]
  · simp [le32]
  · simp [le32]
  · simp only [List.length_append, h3, le32, List.length_cons, List.length_nil]
    omega
  · intro hlim
    have hlt : 12 * s.frameEntries.length + 9 < 2 ^ 32 := by
      rw [h3] at hsize
      exact Nat.lt_of_le_of_lt (Nat.le_trans hsize hlim) (by decide)
    rw [List.append_assoc, drop_four_le32, readLE32_le32, Nat.mod_eq_of_lt hlt]

theorem EndStream_frame_envelope_witness :
    ((⟨demoCodec, [⟨4, 2, 10⟩, ⟨3, 1, 10⟩]⟩ : writerImpl).frameEntries.length ≤
        tinyEnv.maxNumberOfFrames ∧
      (writerImpl.EndStream tinyEnv ⟨demoCodec, [⟨4, 2, 10⟩, ⟨3, 1, 10⟩]⟩).map Prod.fst =
        some (mixedFrame, none)) ∧
    ∃ payload : List Nat,
      EndStream.seekTable tinyEnv ⟨demoCodec, [⟨4, 2, 10⟩, ⟨3, 1, 10⟩]⟩ = some payload ∧
      payload.length =
        12 * (⟨demoCodec, [⟨4, 2, 10⟩, ⟨3, 1, 10⟩]⟩ : writerImpl).frameEntries.length + 9 ∧
      mixedFrame = le32 (tinyEnv.skippableFrameType tinyEnv.seekableTag) ++
        le32 (12 * (⟨demoCodec, [⟨4, 2, 10⟩, ⟨3, 1, 10⟩]⟩ :
          writerImpl).frameEntries.length + 9) ++ payload ∧
      mixedFrame.take 4 = le32 (tinyEnv.skippableFrameType tinyEnv.seekableTag) ∧
      (mixedFrame.drop 4).take 4 =
        le32 (12 * (⟨demoCodec, [⟨4, 2, 10⟩, ⟨3, 1, 10⟩]⟩ :
          writerImpl).frameEntries.length + 9) ∧
      mixedFrame.drop 8 = payload ∧
      mixedFrame.length =
        12 * (⟨demoCodec, [⟨4, 2, 10⟩, ⟨3, 1, 10⟩]⟩ : writerImpl).frameEntries.length + 17 ∧
      (tinyEnv.maxFrameSize ≤ 4294967295 →
        readLE32 (mixedFrame.drop 4) =
          some (12 * (⟨demoCodec, [⟨4, 2, 10⟩, ⟨3, 1, 10⟩]⟩ :
            writerImpl).frameEntries.length + 9)) :=
  ⟨⟨by decide, by decide⟩,
    EndStream_frame_envelope tinyEnv ⟨demoCodec, [⟨4, 2, 10⟩, ⟨3, 1, 10⟩]⟩ mixedFrame
      (by decide) (by decide)⟩

/-! ## Claims on reachable states -/

/-- The entry `encodeOne` returns when both size checks pass. -/
theorem encodeOne_entry_of_within_bounds (E : Env) (s : writerImpl) (src : List Nat)
    (hne : src ≠ []) (hsrc : src.length ≤ E.maxChunkSize)
    (hdst : (s.enc.EncodeAll src).length ≤ E.maxChunkSize) :
    (s.encodeOne E src).2.1 =
      ⟨uint32 (s.enc.EncodeAll src).length, uint32 src.length,
        uint32 (shr64 (shl64 (E.Sum64 src % 2 ^ 64) 32) 32)⟩ := by
  have h0 : src.length ≠ 0 := length_pos_of_ne_nil hne
  have h1 : ¬ src.length > E.maxChunkSize := Nat.not_lt.mpr hsrc
  have h2 : ¬ (s.enc.EncodeAll src).length > E.maxChunkSize := Nat.not_lt.mpr hdst
  simp only [writerImpl.encodeOne, if_neg h0, if_neg h1, if_neg h2]

/-- Every input counted by `successfulInputs` is non-empty and passed both size
checks. -/
theorem mem_successfulInputs (E : Env) (srcs : List (List Nat)) :
    ∀ (s : writerImpl) (src : List Nat), src ∈ successfulInputs E s srcs →
      src ≠ [] ∧ src.length ≤ E.maxChunkSize ∧
        (s.enc.EncodeAll src).length ≤ E.maxChunkSize := by
  induction srcs with
  | nil =>
    intro s src h
    simp [successfulInputs_nil] at h
  | cons x rest ih =>
    intro s src h
    rw [successfulInputs_cons, List.mem_append] at h
    rcases h with h | h
    · by_cases hx : x ≠ [] ∧ (s.Encode E x).1.2 = none
      · rw [if_pos hx] at h
        have hsx : src = x := by simpa using h
        subst hsx
        exact ⟨hx.1, bounds_of_Encode_ok E s src hx.1 hx.2⟩
      · rw [if_neg hx] at h
        simp at h
    · have hr := ih (s.Encode E x).2 src h
      rw [Encode_enc] at hr
      exact hr

theorem uint32_le (x : Nat) : uint32 x ≤ x := Nat.mod_le x _

/-- C16: in every state reached from a fresh encoder by a sequence of `Encode` and
`EndStream` calls, successful or failing, every entry of the entry list has
`CompressedSize ≤ maxChunkSize` and `DecompressedSize ≤ maxChunkSize`; and when
`maxChunkSize ≤ 2 ^ 32 - 1`, the two fields of the entries are, in order, the true
lengths `len(EncodeAll(src))` and `len(src)` of the non-empty inputs whose `Encode`
returned no error, without truncation. -/
theorem reachable_entries_within_bounds (E : Env) (codec : ZSTDEncoder)
    (calls : List Call) (s : writerImpl)
    (hreach : runCalls E (NewEncoder codec) calls = some s) :
    (∀ e ∈ s.frameEntries,
      e.CompressedSize ≤ E.maxChunkSize ∧ e.DecompressedSize ≤ E.maxChunkSize) ∧
    (E.maxChunkSize ≤ 4294967295 →
      s.frameEntries.map (fun e => (e.CompressedSize, e.DecompressedSize)) =
        (successfulInputs E (NewEncoder codec) (encodeInputs calls)).map
          (fun src => ((codec.EncodeAll src).length, src.length))) := by
  rw [runCalls_eq, Option.some.injEq] at hreach
  have hfe := encodeCalls_frameEntries E (encodeInputs calls) (NewEncoder codec)
  rw [hreach, show (NewEncoder codec).frameEntries = [] from rfl, List.nil_append] at hfe
  have hentry : ∀ src ∈ successfulInputs E (NewEncoder codec) (encodeInputs calls),
      ((NewEncoder codec).encodeOne E src).2.1 =
        ⟨uint32 (codec.EncodeAll src).length, uint32 src.length,
          uint32 (shr64 (shl64 (E.Sum64 src % 2 ^ 64) 32) 32)⟩ ∧
      (codec.EncodeAll src).length ≤ E.maxChunkSize ∧ src.length ≤ E.maxChunkSize := by
    intro src hsrc
    obtain ⟨h1, h2, h3⟩ := mem_successfulInputs E _ _ src hsrc
    exact ⟨encodeOne_entry_of_within_bounds E _ src h1 h2 h3, h3, h2⟩
  constructor
  · intro e he
    rw [hfe, List.mem_map] at he
    obtain ⟨src, hsrc, rfl⟩ := he
    obtain ⟨heq, hc, hd⟩ := hentry src hsrc
    rw [heq]
    exact ⟨Nat.le_trans (uint32_le _) hc, Nat.le_trans (uint32_le _) hd⟩
  · intro h32
    rw [hfe, List.map_map]
    apply List.map_congr_left
    intro src hsrc
    obtain ⟨heq, hc, hd⟩ := hentry src hsrc
    simp only [Function.comp, heq, uint32_of_le hc h32, uint32_of_le hd h32]

theorem reachable_entries_within_bounds_witness :
    runCalls tinyEnv (NewEncoder demoCodec) mixedApiCalls =
      some ⟨demoCodec, [⟨4, 2, 10⟩, ⟨3, 1, 10⟩]⟩ ∧
    ((∀ e ∈ (⟨demoCodec, [⟨4, 2, 10⟩, ⟨3, 1, 10⟩]⟩ : writerImpl).frameEntries,
      e.CompressedSize ≤ tinyEnv.maxChunkSize ∧ e.DecompressedSize ≤ tinyEnv.maxChunkSize) ∧
    (tinyEnv.maxChunkSize ≤ 4294967295 →
      (⟨demoCodec, [⟨4, 2, 10⟩, ⟨3, 1, 10⟩]⟩ : writerImpl).frameEntries.map
          (fun e => (e.CompressedSize, e.DecompressedSize)) =
        (successfulInputs tinyEnv (NewEncoder demoCodec) (encodeInputs mixedApiCalls)).map
          (fun src => ((demoCodec.EncodeAll src).length, src.length)))) :=
  ⟨rfl,
    reachable_entries_within_bounds tinyEnv demoCodec mixedApiCalls
      ⟨demoCodec, [⟨4, 2, 10⟩, ⟨3, 1, 10⟩]⟩ rfl⟩

theorem acceptedInputs_cons (E : Env) (s : writerImpl) (src : List Nat)
    (rest : List (List Nat)) :
    acceptedInputs E s (src :: rest) =
      (if (s.Encode E src).1.2 = none then [src] else []) ++
        acceptedInputs E (s.Encode E src).2 rest := by
  by_cases h : (s.Encode E src).1.2 = none
  · simp [acceptedInputs, encodeCalls, List.filter_cons, h]
  · simp [acceptedInputs, encodeCalls, List.filter_cons, h]

/-- One call of `Encode`: what it adds to the two sums over the entry list. -/
theorem Encode_sums (E : Env) (s : writerImpl) (src : List Nat)
    (h32 : E.maxChunkSize ≤ 4294967295) :
    (((s.Encode E src).2.frameEntries.map seekTableEntry.CompressedSize).sum =
      (s.frameEntries.map seekTableEntry.CompressedSize).sum + (s.Encode E src).1.1.length) ∧
    (((s.Encode E src).2.frameEntries.map seekTableEntry.DecompressedSize).sum =
      (s.frameEntries.map seekTableEntry.DecompressedSize).sum +
        ((if (s.Encode E src).1.2 = none then [src] else []).map List.length).sum) := by
  by_cases hne : src = []
  · subst hne
    have h : s.Encode E [] = (([], none), s) := by simp [writerImpl.Encode]
    rw [h]
    simp
  · by_cases hsrc : src.length ≤ E.maxChunkSize
    · by_cases hdst : (s.enc.EncodeAll src).length ≤ E.maxChunkSize
      · rw [Encode_of_within_bounds E s src hne hsrc hdst]
        simp [uint32_of_le hsrc h32, uint32_of_le hdst h32]
      · rw [Encode_of_result_too_big E s src hne hsrc (Nat.lt_of_not_le hdst)]
        simp
    · rw [Encode_of_input_too_big E s src (Nat.lt_of_not_le hsrc)]
      simp

/-- A session of `Encode` calls: what it adds to the two sums over the entry list. -/
theorem encodeCalls_sums (E : Env) (h32 : E.maxChunkSize ≤ 4294967295)
    (srcs : List (List Nat)) :
    ∀ s : writerImpl,
      (((encodeCalls E s srcs).2.frameEntries.map seekTableEntry.CompressedSize).sum =
        (s.frameEntries.map seekTableEntry.CompressedSize).sum +
          ((encodeCalls E s srcs).1.map (fun r => r.1.length)).sum) ∧
      (((encodeCalls E s srcs).2.frameEntries.map seekTableEntry.DecompressedSize).sum =
        (s.frameEntries.map seekTableEntry.DecompressedSize).sum +
          ((acceptedInputs E s srcs).map List.length).sum) := by
  induction srcs with
  | nil =>
    intro s
    simp [encodeCalls, acceptedInputs]
  | cons src rest ih =>
    intro s
    obtain ⟨hc, hd⟩ := Encode_sums E s src h32
    obtain ⟨ihc, ihd⟩ := ih (s.Encode E src).2
    rw [acceptedInputs_cons]
    simp only [encodeCalls, List.map_cons, List.sum_cons, List.map_append, List.sum_append]
    rw [ihc, ihd, hc, hd]
    constructor <;> omega

/-- C17: for every sequence of `Encode` calls on a fresh encoder, with
`maxChunkSize ≤ 2 ^ 32 - 1`, the sum of `CompressedSize` over the entry list is the
total number of bytes returned by all the calls, and the sum of `DecompressedSize` is
the total length of the inputs of the calls that returned no error. -/
theorem index_stream_consistency (E : Env) (codec : ZSTDEncoder) (srcs : List (List Nat))
    (h32 : E.maxChunkSize ≤ 4294967295) :
    (((encodeCalls E (NewEncoder codec) srcs).2.frameEntries.map
        seekTableEntry.CompressedSize).sum =
      ((encodeCalls E (NewEncoder codec) srcs).1.map (fun r => r.1.length)).sum) ∧
    (((encodeCalls E (NewEncoder codec) srcs).2.frameEntries.map
        seekTableEntry.DecompressedSize).sum =
      ((acceptedInputs E (NewEncoder codec) srcs).map List.length).sum) := by
  obtain ⟨hc, hd⟩ := encodeCalls_sums E h32 srcs (NewEncoder codec)
  rw [hc, hd]
  simp [NewEncoder]

theorem index_stream_consistency_witness :
    tinyEnv.maxChunkSize ≤ 4294967295 ∧
    ((((encodeCalls tinyEnv (NewEncoder demoCodec) mixedCalls).2.frameEntries.map
        seekTableEntry.CompressedSize).sum =
      ((encodeCalls tinyEnv (NewEncoder demoCodec) mixedCalls).1.map
        (fun r => r.1.length)).sum) ∧
    (((encodeCalls tinyEnv (NewEncoder demoCodec) mixedCalls).2.frameEntries.map
        seekTableEntry.DecompressedSize).sum =
      ((acceptedInputs tinyEnv (NewEncoder demoCodec) mixedCalls).map List.length).sum)) :=
  ⟨by decide, index_stream_consistency tinyEnv demoCodec mixedCalls (by decide)⟩

/-! ## Claim on the slices of EndStream -/

/-- The loop of `EndStream` slices the buffer at `entrySlot i`. -/
theorem loop_uses_entrySlot (e : seekTableEntry) (es : List seekTableEntry) (i : Nat)
    (seekTable : List Nat) :
    EndStream.loop (e :: es) i seekTable =
      match withSlice seekTable (EndStream.entrySlot i).1 (EndStream.entrySlot i).2
        e.marshalBinaryInline with
      | some seekTable => EndStream.loop es (i + 1) seekTable
      | none => none := rfl

/-- The buffer of `EndStream` has length `bufferLength` and the footer is written
through `footerSlot`. -/
theorem seekTable_uses_footerSlot (E : Env) (s : writerImpl) :
    EndStream.seekTable E s =
      match EndStream.loop s.frameEntries 0
        (makeBytes (EndStream.bufferLength s.frameEntries.length)) with
      | some seekTable =>
        withSlice seekTable (EndStream.footerSlot s.frameEntries.length).1
          (EndStream.footerSlot s.frameEntries.length).2
          ((EndStream.footer E s).marshalBinaryInline E)
      | none => none := rfl

theorem withSlice_isSome (buf : List Nat) (lo hi : Nat) (h1 : lo ≤ hi)
    (h2 : hi ≤ buf.length) : (withSlice buf lo hi some).isSome = true := by
  simp only [withSlice, if_pos (And.intro h1 h2)]
  rfl

/-- The loop of `EndStream` on the buffer it is given by `EndStream`: it returns, with
every entry in its slot and the last 9 bytes as allocated. -/
theorem loop_on_fresh_buffer (es : List seekTableEntry) :
    EndStream.loop es 0 (makeBytes (EndStream.bufferLength es.length)) =
      some (tableBytes es ++ List.replicate 9 0) := by
  have hn : es.length * 12 + 9 = 12 * es.length + 9 := by omega
  have hloop := loop_append es 0 [] (List.replicate (12 * es.length) 0)
    (List.replicate 9 0) rfl (List.length_replicate _ _)
  simp only [List.nil_append] at hloop
  rw [EndStream.bufferLength, makeBytes, hn, List.replicate_add]
  exact hloop

/-- C18: the buffer indexing of `EndStream` never goes out of range. For every encoder
state, with `n` entries: `EndStream` allocates `12*n+9` bytes, its loop slices the
buffer at `[12*i, 12*(i+1))` for each entry and its footer is written through
`[12*n, 12*n+9)`; run on that buffer, the loop and then the footer write return (no
slice expression panics) and leave a buffer of the allocated length in which every
entry sits in its own slot and the footer in the last 9 bytes; each of these slots
lies inside the buffer (slicing any buffer of that length at its bounds does not
panic), the slots are pairwise disjoint, and every offset of the buffer is in one of
them. -/
theorem EndStream_slots_in_range (E : Env) (s : writerImpl) :
    (EndStream.seekTable E s =
      (EndStream.loop s.frameEntries 0
        (makeBytes (EndStream.bufferLength s.frameEntries.length))).bind
        (fun seekTable =>
          withSlice seekTable (EndStream.footerSlot s.frameEntries.length).1
            (EndStream.footerSlot s.frameEntries.length).2
            ((EndStream.footer E s).marshalBinaryInline E))) ∧
    (∀ (e : seekTableEntry) (es : List seekTableEntry) (i : Nat) (buf : List Nat),
      EndStream.loop (e :: es) i buf =
        (withSlice buf (EndStream.entrySlot i).1 (EndStream.entrySlot i).2
          e.marshalBinaryInline).bind (fun buf => EndStream.loop es (i + 1) buf)) ∧
    (makeBytes (EndStream.bufferLength s.frameEntries.length)).length =
      EndStream.bufferLength s.frameEntries.length ∧
    EndStream.loop s.frameEntries 0
        (makeBytes (EndStream.bufferLength s.frameEntries.length)) =
      some (tableBytes s.frameEntries ++ List.replicate 9 0) ∧
    EndStream.seekTable E s =
      some (tableBytes s.frameEntries ++ footerBytes E (EndStream.footer E s)) ∧
    (tableBytes s.frameEntries ++ List.replicate 9 0).length =
      EndStream.bufferLength s.frameEntries.length ∧
    (tableBytes s.frameEntries ++ footerBytes E (EndStream.footer E s)).length =
      EndStream.bufferLength s.frameEntries.length ∧
    EndStream.bufferLength s.frameEntries.length = 12 * s.frameEntries.length + 9 ∧
    (∀ i, i < s.frameEntries.length →
      (EndStream.entrySlot i).1 = 12 * i ∧ (EndStream.entrySlot i).2 = 12 * (i + 1) ∧
      (EndStream.entrySlot i).1 ≤ (EndStream.entrySlot i).2 ∧
      (EndStream.entrySlot i).2 ≤ EndStream.bufferLength s.frameEntries.length ∧
      ∀ buf : List Nat, buf.length = EndStream.bufferLength s.frameEntries.length →
        (withSlice buf (EndStream.entrySlot i).1 (EndStream.entrySlot i).2 some).isSome =
          true) ∧
    ((EndStream.footerSlot s.frameEntries.length).1 = 12 * s.frameEntries.length ∧
      (EndStream.footerSlot s.frameEntries.length).2 = 12 * s.frameEntries.length + 9 ∧
      (EndStream.footerSlot s.frameEntries.length).1 ≤
        (EndStream.footerSlot s.frameEntries.length).2 ∧
      (EndStream.footerSlot s.frameEntries.length).2 ≤
        EndStream.bufferLength s.frameEntries.length ∧
      ∀ buf : List Nat, buf.length = EndStream.bufferLength s.frameEntries.length →
        (withSlice buf (EndStream.footerSlot s.frameEntries.length).1
          (EndStream.footerSlot s.frameEntries.length).2 some).isSome = true) ∧
    (∀ i j k, i < s.frameEntries.length → j < s.frameEntries.length → i ≠ j →
      ¬ ((EndStream.entrySlot i).1 ≤ k ∧ k < (EndStream.entrySlot i).2 ∧
        (EndStream.entrySlot j).1 ≤ k ∧ k < (EndStream.entrySlot j).2)) ∧
    (∀ i k, i < s.frameEntries.length →
      ¬ ((EndStream.entrySlot i).1 ≤ k ∧ k < (EndStream.entrySlot i).2 ∧
        (EndStream.footerSlot s.frameEntries.length).1 ≤ k ∧
        k < (EndStream.footerSlot s.frameEntries.length).2)) ∧
    (∀ k, k < EndStream.bufferLength s.frameEntries.length →
      (∃ i, i < s.frameEntries.length ∧
        (EndStream.entrySlot i).1 ≤ k ∧ k < (EndStream.entrySlot i).2) ∨
      ((EndStream.footerSlot s.frameEntries.length).1 ≤ k ∧
        k < (EndStream.footerSlot s.frameEntries.length).2)) := by
  refine ⟨?_, ?_, ?_, loop_on_fresh_buffer s.frameEntries, seekTable_eq E s,
    ?_, ?_, ?_, ?_, ?_, ?_, ?_, ?_⟩
  · unfold EndStream.seekTable EndStream.bufferLength EndStream.footerSlot
    cases EndStream.loop s.frameEntries 0 (makeBytes (s.frameEntries.length * 12 + 9)) <;> rfl
  · intro e es i buf
    unfold EndStream.entrySlot
    rw [EndStream.loop]
    cases withSlice buf (i * 12) ((i + 1) * 12) e.marshalBinaryInline <;> rfl
  · rw [makeBytes, List.length_replicate]
  · rw [List.length_append, tableBytes_length, List.length_replicate, EndStream.bufferLength]
    omega
  · rw [List.length_append, tableBytes_length, footerBytes_length, EndStream.bufferLength]
    omega
  · simp only [EndStream.bufferLength]
    omega
  · intro i hi
    simp only [EndStream.entrySlot, EndStream.bufferLength]
    refine ⟨by omega, by omega, by omega, by omega, ?_⟩
    intro buf hbuf
    exact withSlice_isSome _ _ _ (by omega) (by omega)
  · simp only [EndStream.footerSlot, EndStream.bufferLength]
    refine ⟨by omega, by omega, by omega, by omega, ?_⟩
    intro buf hbuf
    exact withSlice_isSome _ _ _ (by omega) (by omega)
  · intro i j k hi hj hij
    simp only [EndStream.entrySlot]
    omega
  · intro i k hi
    simp only [EndStream.entrySlot, EndStream.footerSlot]
    omega
  · intro k hk
    simp only [EndStream.entrySlot, EndStream.footerSlot, EndStream.bufferLength] at hk ⊢
    by_cases h : k < s.frameEntries.length * 12
    · left
      exact ⟨k / 12, by omega, by omega, by omega⟩
    · right
      omega

end Seekable
